import Mathlib

/-!
# Verification of the llm-guardian finding→fix→apply→validate pipeline

A shallow embedding of the core components of the llm-guardian repository:

* `SolverAgent` (src/agents/solver.ts) — the Patcher: `applyFixes`, `fixFile`,
  `applyStringReplace`, `rollback`;
* the disk-driven rollback command (src/cli/commands/rollback.ts);
* `ProposerAgent` (src/agents/proposer.ts) — the Enricher: `enrichIssues`,
  `processBatched`, `enrichIssue`, `buildContext`;
* `JudgeAgent` (src/agents/judge.ts) — the Validator: `validateFixes`;
* the Orchestrator (src/cli/commands/check.ts) — `runDetectors`, `aggregateIssues`.

The filesystem is modelled as an association list from paths to file contents
(`FS`); JavaScript string primitives used by the code (`String.prototype.includes`,
single-occurrence `String.prototype.replace`, `endsWith`, `substring`,
`split('\n')`) are modelled explicitly on `List Char`.  The JavaScript `RegExp`
engine reached by the `regex-replace` fix type is an external platform facility;
it is kept abstract as a `RegexEngine` parameter (its result for
`content.replace(new RegExp(search), replace)`, `none` modelling a throwing
constructor).  All other code paths are translated directly from the TypeScript
source.
-/

namespace LlmGuardian

/-! ## JavaScript string primitives -/

/-- `containsSub content pat`: whether `pat` occurs as a contiguous substring of
`content`; models `content.includes(pat)` (the empty pattern occurs in every
string, as in JavaScript). -/
def containsSub : List Char → List Char → Bool
  | [], pat => pat.isPrefixOf ([] : List Char)
  | c :: cs, pat => pat.isPrefixOf (c :: cs) || containsSub cs pat

/-- Replace the first occurrence of `pat` in the list by `repl`; models
JavaScript `content.replace(pat, repl)` with a string pattern (which replaces
only the first occurrence, and prepends `repl` when `pat` is empty). -/
def replaceFirstL (pat repl : List Char) : List Char → List Char
  | [] => if pat.isPrefixOf ([] : List Char) then repl else []
  | c :: cs =>
    if pat.isPrefixOf (c :: cs) then repl ++ (c :: cs).drop pat.length
    else c :: replaceFirstL pat repl cs

/-- `content.includes(pat)` on strings. -/
def jsIncludes (content pat : String) : Bool :=
  containsSub content.toList pat.toList

/-- `content.replace(pat, repl)` (first occurrence only) on strings. -/
def jsReplaceFirst (content pat repl : String) : String :=
  String.mk (replaceFirstL pat.toList repl.toList content.toList)

/-- `s.endsWith(pat)` on strings: the final `pat.length` characters equal
`pat` (false when `pat` is longer than `s`, since the clamped drop then yields
`s` itself, which has a different length). -/
def jsEndsWith (s pat : String) : Bool :=
  s.toList.drop (s.toList.length - pat.toList.length) == pat.toList

/-- `s.substring(0, n)` on strings. -/
def takeChars (s : String) (n : Nat) : String :=
  String.mk (s.toList.take n)

/-- Split on newline characters; models JavaScript `s.split('\n')` (the empty
string yields one empty field, a trailing newline yields a trailing empty
field). -/
def splitLinesL : List Char → List (List Char)
  | [] => [[]]
  | c :: cs =>
    if c = '\n' then [] :: splitLinesL cs
    else
      match splitLinesL cs with
      | [] => [[c]]
      | l :: rest => (c :: l) :: rest

/-- `s.split('\n')` on strings. -/
def jsSplitNl (s : String) : List String :=
  (splitLinesL s.toList).map String.mk

/-- `countLinesChanged` from `SolverAgent`: split both versions on newlines and
count the indices (up to the longer file) at which the lines differ; an
out-of-range index on one side reads as JavaScript `undefined`, modelled by
`Option`. -/
def countLinesChanged (original modified : String) : Nat :=
  let o := jsSplitNl original
  let m := jsSplitNl modified
  (List.range (Nat.max o.length m.length)).countP fun i => o.get? i != m.get? i

/-! ## Association-list maps (JavaScript `Map` and the filesystem)

`mapSet` follows `Map.prototype.set`: an existing key keeps its insertion
position and gets the new value; a new key is appended.  The filesystem is the
same structure: a list of `(path, content)` entries; `mapSet` is a file write,
`mapDelete` is `unlinkSync`. -/

def mapGet {α : Type} : List (String × α) → String → Option α
  | [], _ => none
  | (k, v) :: rest, key => if k = key then some v else mapGet rest key

def mapSet {α : Type} : List (String × α) → String → α → List (String × α)
  | [], k, v => [(k, v)]
  | (k1, v1) :: rest, k, v =>
    if k1 = k then (k1, v) :: rest else (k1, v1) :: mapSet rest k v

def mapDelete {α : Type} : List (String × α) → String → List (String × α)
  | [], _ => []
  | (k1, v1) :: rest, k => if k1 = k then rest else (k1, v1) :: mapDelete rest k

/-- The filesystem: association of absolute paths to file contents. -/
abbrev FS := List (String × String)

/-! ## Finding / fix data model (src/detectors/types.ts, as consumed by the
agents; `Option` fields model optional TypeScript properties) -/

inductive Severity | critical | high | medium | low
deriving DecidableEq

/-- The four fix types of the `Fix` interface. -/
inductive FixType | stringReplace | regexReplace | astTransform | llmGenerated
deriving DecidableEq

/-- A fix candidate.  The `search` field holds the literal search string (for a
`RegExp`-valued search the code reads `search.source`, so the pattern source
string represents it). -/
structure Fix where
  type : FixType
  search : String
  replace : String
  confidence : Option Rat
  explanation : Option String
  deriving DecidableEq

/-- One detected defect instance. -/
structure Issue where
  id : String
  severity : Severity
  category : String
  filePath : String
  line : Nat
  column : Option Nat
  message : String
  suggestion : Option String
  evidence : String
  fix : Option Fix
  metadata : Option (List (String × String))
  deriving DecidableEq

/-! ## SolverAgent (src/agents/solver.ts) -/

structure FixChanges where
  linesModified : Nat
  charsModified : Nat
  deriving DecidableEq

/-- `FixResult` from solver.ts. -/
structure FixResult where
  success : Bool
  filePath : String
  issueId : String
  backupPath : Option String
  error : Option String
  changes : Option FixChanges
  deriving DecidableEq

/-- Constructor options of `SolverAgent` (all optional). -/
structure SolverOptions where
  dryRun : Option Bool := none
  createBackups : Option Bool := none
  backupSuffix : Option String := none
  minConfidence : Option Rat := none

/-- The resolved private fields of a `SolverAgent`. -/
structure SolverConfig where
  dryRun : Bool
  createBackups : Bool
  backupSuffix : String
  minConfidence : Rat

/-- The `SolverAgent` constructor: `dryRun = options.dryRun || false`,
`createBackups = options.createBackups !== false`,
`backupSuffix = options.backupSuffix || '.llm-guardian-backup'` (an empty
string is falsy in JavaScript, hence also defaulted), and
`minConfidence = options.minConfidence !== undefined ? options.minConfidence : 0.0`. -/
def mkSolverConfig (o : SolverOptions) : SolverConfig where
  dryRun := o.dryRun.getD false
  createBackups := o.createBackups != some false
  backupSuffix :=
    match o.backupSuffix with
    | some s => if s = "" then ".llm-guardian-backup" else s
    | none => ".llm-guardian-backup"
  minConfidence := o.minConfidence.getD 0

/-- Abstract JavaScript `RegExp` platform: `engine content search replace`
models `content.replace(new RegExp(search), replace)`; `none` models the
`RegExp` constructor throwing on an invalid pattern. -/
abbrev RegexEngine := String → String → String → Option String

/-- The `{ success, newContent?, error? }` record returned by the private
`applyFix` / `applyStringReplace` / `applyRegexReplace` helpers. -/
structure ApplyOutcome where
  success : Bool
  newContent : Option String
  error : Option String
  deriving DecidableEq

/-- `SolverAgent.applyStringReplace`: require the literal search string to
occur, replace its first occurrence, and fail when the replacement leaves the
content unchanged. -/
def applyStringReplace (content search replace : String) : ApplyOutcome :=
  if !jsIncludes content search then
    { success := false, newContent := none,
      error := some ("Search pattern not found in file: " ++ takeChars search 50 ++ "...") }
  else
    let newContent := jsReplaceFirst content search replace
    if newContent = content then
      { success := false, newContent := none,
        error := some "Replacement did not modify content" }
    else
      { success := true, newContent := some newContent, error := none }

/-- `SolverAgent.applyRegexReplace`, over the abstract engine.  The source
formats the constructor exception into the error message; the model keeps the
fixed prefix. -/
def applyRegexReplace (engine : RegexEngine) (content search replace : String) : ApplyOutcome :=
  match engine content search replace with
  | none =>
    { success := false, newContent := none, error := some "Invalid regex" }
  | some newContent =>
    if newContent = content then
      { success := false, newContent := none,
        error := some "Regex pattern did not match any content" }
    else
      { success := true, newContent := some newContent, error := none }

/-- `SolverAgent.applyFix`: dispatch on the fix type; `llm-generated` fixes use
string replacement, `ast-transform` is not supported. -/
def applyFix (engine : RegexEngine) (content : String) (i : Issue) : ApplyOutcome :=
  match i.fix with
  | none => { success := false, newContent := none, error := some "No fix provided" }
  | some f =>
    match f.type with
    | .stringReplace => applyStringReplace content f.search f.replace
    | .regexReplace => applyRegexReplace engine content f.search f.replace
    | .llmGenerated => applyStringReplace content f.search f.replace
    | .astTransform =>
      { success := false, newContent := none, error := some "AST transforms not yet supported" }

/-- `result.error || 'Failed to apply fix'` (empty string is falsy). -/
def errOrDefault (e : Option String) : String :=
  match e with
  | some s => if s = "" then "Failed to apply fix" else s
  | none => "Failed to apply fix"

/-- A failed `FixResult` (the failure branches of `fixFile` set exactly these
fields). -/
def failRes (p id err : String) : FixResult :=
  { success := false, filePath := p, issueId := id, backupPath := none,
    error := some err, changes := none }

/-- A successful `FixResult` as pushed by `fixFile` (change statistics compare
the original content with the working copy after this fix). -/
def successRes (orig : String) (bk : Option String) (p : String) (i : Issue)
    (c2 : String) : FixResult :=
  { success := true, filePath := p, issueId := i.id, backupPath := bk, error := none,
    changes := some
      { linesModified := countLinesChanged orig c2,
        charsModified := ((c2.length : Int) - (orig.length : Int)).natAbs } }

/-- The branch condition of the per-issue loop in `fixFile`: the new working
content when `result.success && result.newContent` is truthy (an empty new
content is falsy in JavaScript and counts as failure), `none` otherwise. -/
def stepOutcome (engine : RegexEngine) (c : String) (i : Issue) : Option String :=
  match (applyFix engine c i).newContent, (applyFix engine c i).success with
  | some c2, true => if c2 = "" then none else some c2
  | _, _ => none

/-- Step 4 of `SolverAgent.fixFile`: the sequential per-issue loop over the
in-memory working copy `c`.  `orig` is the content read once at the start (used
for the change statistics), `bk` the backup path recorded on successful
results.  An issue without a fix is skipped (`continue`) without a result; a
failing fix leaves the working copy unchanged and the loop continues. -/
def fixLoop (engine : RegexEngine) (orig : String) (bk : Option String) (p : String) :
    String → List Issue → String × List FixResult
  | c, [] => (c, [])
  | c, i :: rest =>
    match i.fix with
    | none => fixLoop engine orig bk p c rest
    | some _ =>
      match stepOutcome engine c i with
      | some c2 =>
        ((fixLoop engine orig bk p c2 rest).1,
          successRes orig bk p i c2 :: (fixLoop engine orig bk p c2 rest).2)
      | none =>
        ((fixLoop engine orig bk p c rest).1,
          failRes p i.id (errOrDefault (applyFix engine c i).error) ::
            (fixLoop engine orig bk p c rest).2)

/-- `SolverAgent.fixFile`: check existence, read the original once, snapshot to
`filePath + backupSuffix` (unless dry-run or backups disabled), run the fix
loop on the working copy, and write back only when the final content differs
from the original. -/
def fixFile (cfg : SolverConfig) (engine : RegexEngine) (fs : FS) (p : String)
    (g : List Issue) : FS × List FixResult :=
  match mapGet fs p with
  | none => (fs, g.map fun i => failRes p i.id ("File not found: " ++ p))
  | some orig =>
    let bkOn := cfg.createBackups && !cfg.dryRun
    let bk : Option String := if bkOn then some (p ++ cfg.backupSuffix) else none
    let fs1 := if bkOn then mapSet fs (p ++ cfg.backupSuffix) orig else fs
    let cfin := (fixLoop engine orig bk p orig g).1
    let fs2 := if !cfg.dryRun && cfin != orig then mapSet fs1 p cfin else fs1
    (fs2, (fixLoop engine orig bk p orig g).2)

/-- The up-front filter of `SolverAgent.applyFixes`: the issue must carry a fix
whose `search` and `replace` are truthy (non-empty), and a fix carrying a
confidence score must meet the minimum-confidence threshold. -/
def fixableFilter (cfg : SolverConfig) (i : Issue) : Bool :=
  match i.fix with
  | none => false
  | some f =>
    if f.search = "" || f.replace = "" then false
    else
      match f.confidence with
      | some conf => decide (cfg.minConfidence ≤ conf)
      | none => true

/-- One step of `SolverAgent.groupByFile`: append the issue to its file group,
creating the group at the end on first sight of the path (JavaScript `Map`
insertion order). -/
def insertGroup : List (String × List Issue) → Issue → List (String × List Issue)
  | [], i => [(i.filePath, [i])]
  | (p, g) :: rest, i =>
    if p = i.filePath then (p, g ++ [i]) :: rest else (p, g) :: insertGroup rest i

/-- `SolverAgent.groupByFile`. -/
def groupByFile (issues : List Issue) : List (String × List Issue) :=
  issues.foldl insertGroup []

/-- Step 3 of `SolverAgent.applyFixes`: process the file groups one at a time,
threading the filesystem and concatenating the per-file results. -/
def processGroups (cfg : SolverConfig) (engine : RegexEngine) :
    FS → List (String × List Issue) → FS × List FixResult
  | fs, [] => (fs, [])
  | fs, (p, g) :: rest =>
    ((processGroups cfg engine (fixFile cfg engine fs p g).1 rest).1,
      (fixFile cfg engine fs p g).2 ++
        (processGroups cfg engine (fixFile cfg engine fs p g).1 rest).2)

/-- `SolverAgent.applyFixes`: filter the fixable issues, group them by file and
process each group (an empty fixable set returns the empty result list, which
coincides with processing no groups). -/
def applyFixes (cfg : SolverConfig) (engine : RegexEngine) (fs : FS)
    (issues : List Issue) : FS × List FixResult :=
  processGroups cfg engine fs (groupByFile (issues.filter (fixableFilter cfg)))

/-- One iteration of the backup-collection loop of `SolverAgent.rollback`:
keep the result's backup path under its file path when the result succeeded
and its backup path is truthy and still exists on disk. -/
def collectStep (fs : FS) (m : List (String × String)) (r : FixResult) :
    List (String × String) :=
  match r.backupPath with
  | some b =>
    if r.success && b != "" && (mapGet fs b).isSome then mapSet m r.filePath b else m
  | none => m

/-- The backup-collection loop of `SolverAgent.rollback` (`Map.set` semantics:
last write per key wins). -/
def collectBackups (fs : FS) (results : List FixResult) : List (String × String) :=
  results.foldl (collectStep fs) []

/-- The restore loop of `SolverAgent.rollback`: copy each collected backup over
its file; a failing copy (missing backup) is logged and skipped.  Returns the
filesystem and `filesRestored`. -/
def rollbackRestore : FS → List (String × String) → FS × Nat
  | fs, [] => (fs, 0)
  | fs, (p, b) :: rest =>
    match mapGet fs b with
    | some c =>
      ((rollbackRestore (mapSet fs p c) rest).1, (rollbackRestore (mapSet fs p c) rest).2 + 1)
    | none => rollbackRestore fs rest

/-- `SolverAgent.rollback`. -/
def rollback (fs : FS) (results : List FixResult) : FS × Nat :=
  rollbackRestore fs (collectBackups fs results)

/-! ## Disk-driven rollback (src/cli/commands/rollback.ts)

The discovery walk visits every file under the root except well-known
non-source directories; the model exposes the visited files directly as the
`FS` entries.  A backup entry is a `(original, backup)` pair; `original` is
computed by `fullPath.replace('.llm-guardian-backup', '')`, i.e. removal of the
first occurrence of the fixed suffix. -/

def findBackupFiles (fs : FS) : List (String × String) :=
  fs.filterMap fun e =>
    if jsEndsWith e.1 ".llm-guardian-backup" then
      some (jsReplaceFirst e.1 ".llm-guardian-backup" "", e.1)
    else none

/-- The restore loop of `rollbackCommand` (STEP 4): copy each backup over its
original; with `cleanup` the backup is deleted after a successful restore; a
failed restore counts in `failed` and touches nothing.  Returns the filesystem,
`restored` and `failed`. -/
def restoreBackups : FS → List (String × String) → Bool → FS × Nat × Nat
  | fs, [], _ => (fs, 0, 0)
  | fs, (orig, bk) :: rest, cleanup =>
    match mapGet fs bk with
    | some c =>
      let fs2 := if cleanup then mapDelete (mapSet fs orig c) bk else mapSet fs orig c
      ((restoreBackups fs2 rest cleanup).1,
        (restoreBackups fs2 rest cleanup).2.1 + 1, (restoreBackups fs2 rest cleanup).2.2)
    | none =>
      ((restoreBackups fs rest cleanup).1,
        (restoreBackups fs rest cleanup).2.1, (restoreBackups fs rest cleanup).2.2 + 1)

/-! ## ProposerAgent (src/agents/proposer.ts) -/

/-- An input file, as handed to detectors and the proposer. -/
structure AnalysisFile where
  path : String
  content : String
  extension : String
  deriving DecidableEq

structure Surrounding where
  before : List String
  issue : String
  after : List String
  deriving DecidableEq

/-- `extractSurroundingLines` from src/llm/prompts.ts. -/
def extractSurroundingLines (fileContent : String) (issueLine : Nat)
    (contextLines : Nat) : Option Surrounding :=
  let lines := jsSplitNl fileContent
  if issueLine < 1 || lines.length < issueLine then none
  else
    let lineIndex := issueLine - 1
    let beforeStart := lineIndex - contextLines
    let afterEnd := Nat.min lines.length (lineIndex + contextLines + 1)
    some
      { before := (lines.take lineIndex).drop beforeStart,
        issue := (lines.get? lineIndex).getD "",
        after := (lines.take afterEnd).drop (lineIndex + 1) }

structure LLMContext where
  fileContent : String
  filePath : String
  fileExtension : String
  surroundingLines : Option Surrounding
  relatedIssues : Option (List Issue)
  deriving DecidableEq

/-- The suggestion engine (`ILLMProvider`): `generateFix` returns `some f`
exactly when the provider response is non-null with `success = true` and a fix
attached; every failure mode (error, timeout, malformed response) is `none`. -/
structure Provider where
  available : Bool
  generateFix : Issue → LLMContext → Option Fix

structure ProposerOptions where
  maxConcurrent : Option Nat := none
  enabledCategories : Option (List String) := none

structure ProposerConfig where
  maxConcurrent : Nat
  enabledCategories : List String

/-- The `ProposerAgent` constructor: `maxConcurrent = options.maxConcurrent || 3`
(zero is falsy and also defaults) and the enabled-category set defaults to
hallucination and code-quality. -/
def mkProposerConfig (o : ProposerOptions) : ProposerConfig where
  maxConcurrent :=
    match o.maxConcurrent with
    | some n => if n = 0 then 3 else n
    | none => 3
  enabledCategories := o.enabledCategories.getD ["hallucination", "code-quality"]

/-- `file.extension || file.path.substring(file.path.lastIndexOf('.')) || '.txt'`:
JavaScript `substring` clamps the `-1` of a dotless path to `0`, yielding the
whole path. -/
def extOf (file : AnalysisFile) : String :=
  if file.extension != "" then file.extension
  else
    let cs := file.path.toList
    let dotIdxs := (List.range cs.length).filter fun i => cs.get? i == some '.'
    let fromDot := String.mk (cs.drop (dotIdxs.getLast?.getD 0))
    if fromDot != "" then fromDot else ".txt"

/-- `ProposerAgent.buildContext`: `none` when the issue's file is not in the
file map; `relatedIssues` is always the empty list in the source, hence
`undefined` after the `length > 0` guard. -/
def buildContext (issue : Issue) (fileMap : List (String × AnalysisFile)) :
    Option LLMContext :=
  match mapGet fileMap issue.filePath with
  | none => none
  | some file =>
    some
      { fileContent := file.content, filePath := file.path, fileExtension := extOf file,
        surroundingLines := extractSurroundingLines file.content issue.line 3,
        relatedIssues := none }

/-- `ProposerAgent.enrichIssue`: attach the provider's fix on success; any
failure returns the issue unchanged. -/
def enrichIssue (provider : Provider) (fileMap : List (String × AnalysisFile))
    (issue : Issue) : Issue :=
  match buildContext issue fileMap with
  | none => issue
  | some context =>
    match provider.generateFix issue context with
    | some f => { issue with fix := some f }
    | none => issue

/-- Structural worker for `chunkList`: the fuel (initially the list length)
only bounds the number of chunks — every chunk consumes at least one element,
so the zero-fuel case is unreachable from `chunkList`. -/
def chunkGo {α : Type} (n : Nat) : Nat → List α → List (List α)
  | _, [] => []
  | 0, _ :: _ => []
  | fuel + 1, x :: xs =>
    ((x :: xs).take (Nat.max n 1)) :: chunkGo n fuel ((x :: xs).drop (Nat.max n 1))

/-- The batching of `ProposerAgent.processBatched`: consecutive slices of
`maxConcurrent` issues (`slice(i, i + maxConcurrent)` for `i = 0, n, 2n, ...`).
The source loop requires `maxConcurrent ≥ 1`, which the constructor guarantees;
the `Nat.max` only renders the out-of-contract zero case total. -/
def chunkList {α : Type} (n : Nat) (l : List α) : List (List α) :=
  chunkGo n l.length l

/-- `ProposerAgent.processBatched`: each batch is dispatched with `Promise.all`
(pure in the model: an elementwise map) and the batches run sequentially,
accumulating into `enriched`. -/
def processBatched (provider : Provider) (cfg : ProposerConfig)
    (issues : List Issue) (fileMap : List (String × AnalysisFile)) : List Issue :=
  (chunkList cfg.maxConcurrent issues).foldl
    (fun acc batch => acc ++ batch.map (enrichIssue provider fileMap)) []

/-- The merge key `issue.id + issue.filePath + issue.line` of
`ProposerAgent.enrichIssues` (JavaScript coerces the line number to its decimal
string). -/
def mergeKey (i : Issue) : String :=
  i.id ++ i.filePath ++ toString i.line

/-- `ProposerAgent.enrichIssues`: return the input unchanged when the provider
is unavailable or no issue has an enabled category; otherwise enrich the
eligible issues in batches and merge them back over the input by merge key. -/
def enrichIssues (provider : Provider) (cfg : ProposerConfig)
    (issues : List Issue) (files : List AnalysisFile) : List Issue :=
  if !provider.available then issues
  else
    let fileMap := files.foldl (fun m f => mapSet m f.path f) []
    let issuesToProcess := issues.filter fun i => cfg.enabledCategories.contains i.category
    if issuesToProcess.isEmpty then issues
    else
      let enriched := processBatched provider cfg issuesToProcess fileMap
      let issueMap := enriched.foldl (fun m i => mapSet m (mergeKey i) i) []
      issues.map fun issue => (mapGet issueMap (mergeKey issue)).getD issue

/-! ## JudgeAgent (src/agents/judge.ts)

The external command invocations (`npm run type-check`, `npm test`,
`npm run lint`) and the `package.json` script probes are platform effects,
provided by a `JudgeEnv`. -/

structure ValidationCheck where
  name : String
  passed : Bool
  error : Option String
  output : Option String
  executionTimeMs : Nat
  deriving DecidableEq

structure ValidationResult where
  success : Bool
  fixResult : FixResult
  checks : List ValidationCheck
  message : String
  executionTimeMs : Nat
  deriving DecidableEq

structure ExecOk where
  stdout : String
  stderr : String

structure ExecErr where
  message : String
  stdout : Option String
  stderr : Option String

/-- Outcomes of the external validation commands and script probes. -/
structure JudgeEnv where
  typeCheckExec : Except ExecErr ExecOk
  testExec : Except ExecErr ExecOk
  lintExec : Except ExecErr ExecOk
  hasTestScript : Bool
  hasLintScript : Bool
  elapsedMs : Nat

structure JudgeOptions where
  runTypeCheck : Option Bool := none
  runLint : Option Bool := none
  runTests : Option Bool := none

structure JudgeConfig where
  runTypeCheck : Bool
  runLint : Bool
  runTests : Bool

/-- The `JudgeAgent` constructor defaults: type-check and tests on unless
explicitly disabled, lint off unless enabled. -/
def mkJudgeConfig (o : JudgeOptions) : JudgeConfig where
  runTypeCheck := o.runTypeCheck != some false
  runLint := o.runLint.getD false
  runTests := o.runTests != some false

/-- `a || b` on JavaScript strings (empty is falsy). -/
def jsOrStr (a b : String) : String :=
  if a = "" then b else a

/-- `a || b` on possibly-undefined JavaScript strings. -/
def jsOrOptStr (a b : Option String) : Option String :=
  match a with
  | some s => if s = "" then b else some s
  | none => b

/-- The shared shape of `runTypeCheckValidation` / `runTestValidation` /
`runLintValidation`: a zero exit code passes with `output = stdout || stderr`;
an exception fails with the exception's message and streams. -/
def execCheck (name : String) (ex : Except ExecErr ExecOk) (elapsed : Nat) :
    ValidationCheck :=
  match ex with
  | .ok o =>
    { name := name, passed := true, error := none,
      output := some (jsOrStr o.stdout o.stderr), executionTimeMs := elapsed }
  | .error e =>
    { name := name, passed := false, error := some e.message,
      output := jsOrOptStr e.stdout e.stderr, executionTimeMs := elapsed }

/-- The checks run by one `validateFixes` pass: type-check when enabled, tests
when enabled and a test script exists, lint when enabled and a lint script
exists. -/
def judgeChecks (cfg : JudgeConfig) (env : JudgeEnv) : List ValidationCheck :=
  (if cfg.runTypeCheck then [execCheck "type-check" env.typeCheckExec env.elapsedMs] else []) ++
    (if cfg.runTests && env.hasTestScript then [execCheck "test" env.testExec env.elapsedMs] else []) ++
      (if cfg.runLint && env.hasLintScript then [execCheck "lint" env.lintExec env.elapsedMs] else [])

/-- `JudgeAgent.validateFixes`: keep only successful fix results, run the
checks once, and emit one `ValidationResult` per successful fix, all carrying
the same check list and the same pass-iff-all-checks-passed verdict. -/
def validateFixes (cfg : JudgeConfig) (env : JudgeEnv)
    (fixResults : List FixResult) : List ValidationResult :=
  let successfulFixes := fixResults.filter (·.success)
  if successfulFixes.isEmpty then []
  else
    let checks := judgeChecks cfg env
    let allChecksPassed := checks.all (·.passed)
    successfulFixes.map fun fr =>
      { success := allChecksPassed, fixResult := fr, checks := checks,
        message :=
          if allChecksPassed then "All validation checks passed"
          else "Validation failed: " ++
            String.intercalate ", " (((checks.filter fun c => !c.passed).map (·.name))),
        executionTimeMs := env.elapsedMs }

/-! ## Orchestrator (src/cli/commands/check.ts) -/

/-- A detector run result (`DetectorResult` of src/detectors/types.ts; the
`metadata` bag is flattened to its two always-present fields). -/
structure DetectorResult where
  detectorName : String
  success : Bool
  issues : List Issue
  error : Option String
  filesAnalyzed : Nat
  executionTimeMs : Nat
  deriving DecidableEq

/-- A pluggable analyzer: `detect` either returns a result or throws
(`Except.error` carries the exception message). -/
structure Detector where
  name : String
  detect : List AnalysisFile → Except String DetectorResult

/-- `runDetectors`: every detector runs on the full file set; a throwing
detector is converted to a failed result with its message and no issues. -/
def runDetectors (detectors : List Detector) (files : List AnalysisFile) :
    List DetectorResult :=
  detectors.map fun d =>
    match d.detect files with
    | .ok r => r
    | .error msg =>
      { detectorName := d.name, success := false, issues := [], error := some msg,
        filesAnalyzed := files.length, executionTimeMs := 0 }

/-- The synthetic critical issue `aggregateIssues` builds for a failed detector
(the source interpolates `result.error`, which prints as `undefined` when
absent; the source wraps the detector name in single quotes). -/
def syntheticIssue (r : DetectorResult) : Issue :=
  { id := "detector-error-" ++ r.detectorName
    severity := .critical
    category := "hallucination"
    filePath := ""
    line := 0
    column := none
    message := "Detector " ++ r.detectorName ++ " failed: " ++ r.error.getD "undefined"
    suggestion := some "Check detector logs or report issue"
    evidence := r.error.getD ""
    fix := none
    metadata := none }

/-- `aggregateIssues`: concatenate the issues of successful detectors in order;
a failed detector contributes exactly one synthetic critical issue. -/
def aggregateIssues (results : List DetectorResult) : List Issue :=
  results.foldl
    (fun acc r => if r.success then acc ++ r.issues else acc ++ [syntheticIssue r]) []

/-! ## Association-list lemmas -/

theorem mapGet_mapSet_same {α : Type} (m : List (String × α)) (k : String) (v : α) :
    mapGet (mapSet m k v) k = some v := by
  induction m with
  | nil => simp [mapSet, mapGet]
  | cons e rest ih =>
    by_cases h : e.1 = k
    · simp [mapSet, mapGet, h]
    · simp [mapSet, mapGet, h, ih]

theorem mapGet_mapSet_ne {α : Type} (m : List (String × α)) (k k' : String) (v : α)
    (h : k' ≠ k) : mapGet (mapSet m k v) k' = mapGet m k' := by
  have h' : ¬ (k = k') := fun hh => h hh.symm
  induction m with
  | nil =>
    simp only [mapSet, mapGet]
    rw [if_neg h']
  | cons e rest ih =>
    obtain ⟨k1, v1⟩ := e
    simp only [mapSet]
    by_cases h1 : k1 = k
    · rw [if_pos h1]
      have he : ¬ (k1 = k') := by
        rw [h1]
        exact h'
      simp only [mapGet]
      rw [if_neg he, if_neg he]
    · rw [if_neg h1]
      simp only [mapGet]
      by_cases h2 : k1 = k'
      · rw [if_pos h2, if_pos h2]
      · rw [if_neg h2, if_neg h2, ih]

/-! ## Sample data used by witnesses and counterexamples -/

/-- The default solver configuration (`new SolverAgent({})`). -/
def cfg0 : SolverConfig := mkSolverConfig {}

/-- A regex engine; the examples below never apply a `regex-replace` fix, so
any engine yields the same run. -/
def noRegex : RegexEngine := fun _ _ _ => none

/-- An issue template for examples. -/
def mkIss (id fp : String) (fx : Option Fix) : Issue :=
  { id := id, severity := .high, category := "hallucination", filePath := fp, line := 1,
    column := none, message := "m", suggestion := none, evidence := "e", fix := fx,
    metadata := none }

/-- A `string-replace` fix candidate for examples. -/
def srFix (s r : String) : Fix :=
  { type := .stringReplace, search := s, replace := r, confidence := none,
    explanation := none }

/-- A one-file filesystem for examples: `a.ts` containing `abc`. -/
def exFs : FS := [("a.ts", "abc")]

/-- Fix 1 of the C4 scenario: `abc → xyz` applies to the original content. -/
def exI1 : Issue := mkIss "1" "a.ts" (some (srFix "abc" "xyz"))

/-- Fix 2 of the C4 scenario: `xyz → uvw`; its search text exists only after
fix 1 ran. -/
def exI2 : Issue := mkIss "2" "a.ts" (some (srFix "xyz" "uvw"))

/-- An issue carrying no fix at all. -/
def exNoFix : Issue := mkIss "3" "a.ts" none

/-- An issue whose fix has an empty (falsy) `replace` and whose search text is
absent from `a.ts`. -/
def exEmptyReplace : Issue := mkIss "4" "a.ts" (some (srFix "zzz" ""))

/-- An issue whose well-formed fix has a search text absent from `a.ts`. -/
def exBadSearch : Issue := mkIss "5" "a.ts" (some (srFix "zzz" "w"))

/-- The default proposer configuration (`new ProposerAgent(provider, {})`). -/
def pcfg0 : ProposerConfig := mkProposerConfig {}

/-- An available provider that never produces a fix. -/
def provNoFix : Provider := { available := true, generateFix := fun _ _ => none }

/-- An unavailable provider. -/
def provDown : Provider := { available := false, generateFix := fun _ _ => none }

/-! ## C6 -/

/-- C6: when the suggestion engine's availability probe reports unavailable,
`enrichIssues` returns its input findings unchanged (the very same list: same
length, order and `Issue` values, no fix added) and, being a total function of
its inputs, raises nothing to the caller. -/
theorem enrichIssues_unavailable_identity (provider : Provider) (cfg : ProposerConfig)
    (issues : List Issue) (files : List AnalysisFile)
    (h : provider.available = false) :
    enrichIssues provider cfg issues files = issues := by
  simp [enrichIssues, h]

/-- Witness for C6 at a concrete unavailable provider and a nonempty finding
list. -/
theorem enrichIssues_unavailable_identity_witness :
    enrichIssues provDown pcfg0 [exI1, exNoFix] [] = [exI1, exNoFix] :=
  enrichIssues_unavailable_identity provDown pcfg0 [exI1, exNoFix] [] rfl

/-! ## C8 -/

theorem one_le_maxConcurrent (o : ProposerOptions) :
    1 ≤ (mkProposerConfig o).maxConcurrent := by
  unfold mkProposerConfig
  match h : o.maxConcurrent with
  | none => simp
  | some n =>
    by_cases hn : n = 0
    · simp [hn]
    · simp only [hn, if_false]
      omega

theorem max_one_eq_self_of_one_le (n : Nat) (h : 1 ≤ n) : Nat.max n 1 = n :=
  Nat.max_eq_left h

theorem chunkGo_bounded {α : Type} (n : Nat) :
    ∀ (fuel : Nat) (l : List α), l.length ≤ fuel →
      (∀ b ∈ chunkGo n fuel l, b.length ≤ Nat.max n 1)
      ∧ (chunkGo n fuel l).flatten = l := by
  intro fuel
  induction fuel with
  | zero =>
    intro l h
    have hl : l = [] := List.eq_nil_of_length_eq_zero (Nat.le_zero.mp h)
    subst hl
    simp [chunkGo]
  | succ k ih =>
    intro l h
    match l with
    | [] => simp [chunkGo]
    | x :: xs =>
      have hmax : 1 ≤ Nat.max n 1 := Nat.le_max_right n 1
      have hlen : ((x :: xs).drop (Nat.max n 1)).length ≤ k := by
        simp only [List.length_drop, List.length_cons]
        simp only [List.length_cons] at h
        omega
      obtain ⟨ihb, ihj⟩ := ih _ hlen
      constructor
      · intro b hb
        rw [chunkGo] at hb
        rcases List.mem_cons.mp hb with hb | hb
        · subst hb
          rw [List.length_take]
          exact Nat.min_le_left _ _
        · exact ihb b hb
      · rw [chunkGo, List.flatten_cons, ihj]
        exact List.take_append_drop _ _

theorem chunkList_bounded {α : Type} (n : Nat) (l : List α) :
    (∀ b ∈ chunkList n l, b.length ≤ Nat.max n 1) ∧ (chunkList n l).flatten = l :=
  chunkGo_bounded n l.length l (Nat.le_refl _)

/-- C8: the Enricher partitions the eligible findings into consecutive batches
of size at most `maxConcurrent` (default 3 when the constructor option is
unspecified); `processBatched` folds over these batches sequentially, mapping
the suggestion-engine call over one batch at a time, so the model never has
calls of more than one batch — hence more than `maxConcurrent` calls — in
flight. -/
theorem proposer_batching_bound (o : ProposerOptions) (l : List Issue)
    (b : List Issue) (hb : b ∈ chunkList (mkProposerConfig o).maxConcurrent l) :
    b.length ≤ (mkProposerConfig o).maxConcurrent
    ∧ (chunkList (mkProposerConfig o).maxConcurrent l).flatten = l
    ∧ (mkProposerConfig { o with maxConcurrent := none }).maxConcurrent = 3
    ∧ ∀ (provider : Provider) (fm : List (String × AnalysisFile)),
        processBatched provider (mkProposerConfig o) l fm =
          (chunkList (mkProposerConfig o).maxConcurrent l).foldl
            (fun acc batch => acc ++ batch.map (enrichIssue provider fm)) [] := by
  obtain ⟨hbnd, hjoin⟩ := chunkList_bounded (mkProposerConfig o).maxConcurrent l
  refine ⟨?_, hjoin, rfl, fun _ _ => rfl⟩
  have hble := hbnd b hb
  rwa [max_one_eq_self_of_one_le _ (one_le_maxConcurrent o)] at hble

/-- Witness for C8 at the default options and a seven-element list: the first
batch has the default size 3. -/
theorem proposer_batching_bound_witness :
    ([exI1, exI1, exI1] : List Issue).length ≤ (mkProposerConfig {}).maxConcurrent
    ∧ (chunkList (mkProposerConfig {}).maxConcurrent
        [exI1, exI1, exI1, exI2, exI2, exI2, exNoFix]).flatten =
        [exI1, exI1, exI1, exI2, exI2, exI2, exNoFix]
    ∧ (mkProposerConfig { ({} : ProposerOptions) with maxConcurrent := none }).maxConcurrent = 3
    ∧ ∀ (provider : Provider) (fm : List (String × AnalysisFile)),
        processBatched provider (mkProposerConfig {})
            [exI1, exI1, exI1, exI2, exI2, exI2, exNoFix] fm =
          (chunkList (mkProposerConfig {}).maxConcurrent
              [exI1, exI1, exI1, exI2, exI2, exI2, exNoFix]).foldl
            (fun acc batch => acc ++ batch.map (enrichIssue provider fm)) [] :=
  proposer_batching_bound {} [exI1, exI1, exI1, exI2, exI2, exI2, exNoFix]
    [exI1, exI1, exI1] (by decide)

/-! ## C10 -/

/-- The one validation record a pass attaches to every successful fix. -/
def passRecord (cfg : JudgeConfig) (env : JudgeEnv) (fr : FixResult) : ValidationResult :=
  { success := (judgeChecks cfg env).all (·.passed), fixResult := fr,
    checks := judgeChecks cfg env,
    message :=
      if (judgeChecks cfg env).all (·.passed) then "All validation checks passed"
      else "Validation failed: " ++ String.intercalate ", "
        ((((judgeChecks cfg env).filter fun c => !c.passed).map (·.name))),
    executionTimeMs := env.elapsedMs }

theorem validateFixes_eq (cfg : JudgeConfig) (env : JudgeEnv) (frs : List FixResult) :
    validateFixes cfg env frs = (frs.filter (·.success)).map (passRecord cfg env) := by
  unfold validateFixes passRecord
  by_cases he : (frs.filter (·.success)).isEmpty = true
  · rw [if_pos he, List.isEmpty_iff.mp he]
    rfl
  · rw [if_neg he]

/-- C10: `validateFixes` returns exactly one `ValidationResult` per input
`FixResult` with `success = true` (in order; failed inputs get none), and every
returned result carries the one check list of the pass and the one verdict
`success = all checks passed`, computed once per pass. -/
theorem validateFixes_verdict_once (cfg : JudgeConfig) (env : JudgeEnv)
    (frs : List FixResult) (r : ValidationResult)
    (hr : r ∈ validateFixes cfg env frs) :
    (validateFixes cfg env frs).map (·.fixResult) = frs.filter (·.success)
    ∧ r.checks = judgeChecks cfg env
    ∧ r.success = (judgeChecks cfg env).all (·.passed) := by
  rw [validateFixes_eq] at hr ⊢
  refine ⟨?_, ?_, ?_⟩
  · rw [List.map_map]
    have hid : (fun x => x.fixResult) ∘ passRecord cfg env = id := by
      funext fr
      rfl
    rw [hid, List.map_id]
  · obtain ⟨fr, _, hfr⟩ := List.mem_map.mp hr
    rw [← hfr]
    rfl
  · obtain ⟨fr, _, hfr⟩ := List.mem_map.mp hr
    rw [← hfr]
    rfl

/-- A successful fix result for the C10 witness. -/
def exFrOk : FixResult :=
  { success := true, filePath := "a.ts", issueId := "1",
    backupPath := some "a.ts.llm-guardian-backup", error := none, changes := none }

/-- A failed fix result for the C10 witness. -/
def exFrBad : FixResult :=
  { success := false, filePath := "a.ts", issueId := "2", backupPath := none,
    error := some "nope", changes := none }

/-- A judge environment for the C10 witness: type-check fails, tests pass. -/
def exEnv : JudgeEnv :=
  { typeCheckExec := .error { message := "TS2304", stdout := some "err", stderr := none },
    testExec := .ok { stdout := "ok", stderr := "" },
    lintExec := .ok { stdout := "", stderr := "" },
    hasTestScript := true, hasLintScript := false, elapsedMs := 5 }

/-- Witness for C10: the default judge over one passed and one failed fix
result; the single returned result carries both checks and the failed
verdict. -/
theorem validateFixes_verdict_once_witness :
    (validateFixes (mkJudgeConfig {}) exEnv [exFrBad, exFrOk]).map (·.fixResult) =
        [exFrBad, exFrOk].filter (·.success)
    ∧ (passRecord (mkJudgeConfig {}) exEnv exFrOk).checks =
        judgeChecks (mkJudgeConfig {}) exEnv
    ∧ (passRecord (mkJudgeConfig {}) exEnv exFrOk).success =
        (judgeChecks (mkJudgeConfig {}) exEnv).all (·.passed) :=
  validateFixes_verdict_once (mkJudgeConfig {}) exEnv [exFrBad, exFrOk]
    (passRecord (mkJudgeConfig {}) exEnv exFrOk) (by decide)

/-! ## C9 -/

theorem runDetectors_append (a b : List Detector) (files : List AnalysisFile) :
    runDetectors (a ++ b) files = runDetectors a files ++ runDetectors b files := by
  simp [runDetectors]

theorem aggregateIssues_acc (rs : List DetectorResult) :
    ∀ acc : List Issue,
      rs.foldl (fun acc r => if r.success then acc ++ r.issues else acc ++ [syntheticIssue r])
          acc =
        acc ++ aggregateIssues rs := by
  induction rs with
  | nil =>
    intro acc
    simp [aggregateIssues]
  | cons r rest ih =>
    intro acc
    rw [List.foldl_cons, ih]
    conv_rhs => rw [aggregateIssues, List.foldl_cons, ih]
    cases hs : r.success
    · simp [hs, List.append_assoc]
    · simp [hs, List.append_assoc]

theorem aggregateIssues_append (a b : List DetectorResult) :
    aggregateIssues (a ++ b) = aggregateIssues a ++ aggregateIssues b := by
  conv_lhs => rw [aggregateIssues]
  rw [List.foldl_append, aggregateIssues_acc]
  rfl

/-- C9 (amended): when one analyzer throws, the aggregated output is exactly
the other analyzers' findings in order plus one synthetic finding for the
failed analyzer, with severity critical, empty filePath, line 0, an id derived
from the analyzer name — and the fixed category `hallucination` (the source
marks the category as arbitrary), not a category derived from the analyzer.
The run does not abort: the surrounding analyzers' aggregates are intact. -/
theorem aggregate_detector_failure (ds1 ds2 : List Detector) (d : Detector)
    (files : List AnalysisFile) (msg : String) (hfail : d.detect files = .error msg) :
    aggregateIssues (runDetectors (ds1 ++ d :: ds2) files) =
      aggregateIssues (runDetectors ds1 files) ++
        ({ id := "detector-error-" ++ d.name, severity := Severity.critical,
           category := "hallucination", filePath := "", line := 0, column := none,
           message := "Detector " ++ d.name ++ " failed: " ++ msg,
           suggestion := some "Check detector logs or report issue", evidence := msg,
           fix := none, metadata := none } : Issue) ::
          aggregateIssues (runDetectors ds2 files) := by
  have hsplit : runDetectors (ds1 ++ d :: ds2) files =
      runDetectors ds1 files ++ (runDetectors [d] files ++ runDetectors ds2 files) := by
    rw [← runDetectors_append, ← runDetectors_append]
    simp
  rw [hsplit, aggregateIssues_append, aggregateIssues_append]
  have hd : runDetectors [d] files =
      [{ detectorName := d.name, success := false, issues := [], error := some msg,
         filesAnalyzed := files.length, executionTimeMs := 0 }] := by
    simp [runDetectors, hfail]
  rw [hd]
  have hone : ∀ dr : DetectorResult, dr.success = false →
      aggregateIssues [dr] = [syntheticIssue dr] := by
    intro dr hdr
    simp [aggregateIssues, hdr]
  rw [hone _ rfl]
  simp [syntheticIssue]

/-- A finding produced by the healthy detector of the C9 counterexample. -/
def exGoodIssue : Issue := mkIss "g1" "f.ts" none

/-- A healthy detector named code-quality. -/
def detGood : Detector :=
  { name := "code-quality",
    detect := fun files => .ok
      { detectorName := "code-quality", success := true, issues := [exGoodIssue],
        error := none, filesAnalyzed := files.length, executionTimeMs := 1 } }

/-- A throwing detector named security. -/
def detBad : Detector := { name := "security", detect := fun _ => .error "boom" }

/-- C9 counterexample: with the security analyzer throwing, the aggregate keeps
the other analyzer's finding and exactly one synthetic critical finding with
empty filePath — but the synthetic finding's category is the constant
`hallucination`, not a category derived from the failed `security` analyzer
(only the synthetic id names it). -/
theorem synthetic_category_counterexample :
    aggregateIssues (runDetectors [detGood, detBad] []) =
      [exGoodIssue,
       { id := "detector-error-security", severity := .critical,
         category := "hallucination", filePath := "", line := 0, column := none,
         message := "Detector security failed: boom",
         suggestion := some "Check detector logs or report issue", evidence := "boom",
         fix := none, metadata := none }]
    ∧ detBad.name = "security" ∧ ("hallucination" : String) ≠ "security" :=
  ⟨by decide, rfl, by decide⟩

/-- Witness for C9's amended theorem: the healthy code-quality detector plus
the throwing security detector. -/
theorem aggregate_detector_failure_witness :
    aggregateIssues (runDetectors ([detGood] ++ detBad :: []) []) =
      aggregateIssues (runDetectors [detGood] []) ++
        ({ id := "detector-error-" ++ detBad.name, severity := Severity.critical,
           category := "hallucination", filePath := "", line := 0, column := none,
           message := "Detector " ++ detBad.name ++ " failed: " ++ "boom",
           suggestion := some "Check detector logs or report issue", evidence := "boom",
           fix := none, metadata := none } : Issue) ::
          aggregateIssues (runDetectors [] []) :=
  aggregate_detector_failure [detGood] [] detBad [] "boom" rfl

/-! ## C2 -/

/-- C2 counterexample: for the finding `exNoFix`, which carries no fix,
`applyFixes` returns the empty result list — no `success = false`
`PatchResult` is emitted for it (a silent omission), though indeed no file
write happens. -/
theorem applyFixes_fixless_counterexample :
    (applyFixes cfg0 noRegex exFs [exNoFix]).2 = []
    ∧ (applyFixes cfg0 noRegex exFs [exNoFix]).1 = exFs :=
  ⟨by decide, by decide⟩

/-- C2 (amended): findings lacking a fix, or whose fix has a falsy (empty)
search or replace, are dropped by the up-front filter: `applyFixes` over such
findings emits no `PatchResult` at all and performs no file write, leaving the
filesystem untouched. -/
theorem applyFixes_fixless_rejected_silently (cfg : SolverConfig) (engine : RegexEngine)
    (fs : FS) (issues : List Issue)
    (h : ∀ i ∈ issues,
      match i.fix with
      | none => True
      | some f => f.search = "" ∨ f.replace = "") :
    applyFixes cfg engine fs issues = (fs, []) := by
  have hfil : issues.filter (fixableFilter cfg) = [] := by
    rw [List.filter_eq_nil_iff]
    intro i hi
    have hcase := h i hi
    cases hfx : i.fix with
    | none => simp [fixableFilter, hfx]
    | some f =>
      rw [hfx] at hcase
      rcases hcase with hs | hr
      · simp [fixableFilter, hfx, hs]
      · simp [fixableFilter, hfx, hr]
  rw [applyFixes, hfil]
  rfl

/-- Witness for C2's amended theorem: one finding without a fix and one whose
fix has an empty replace; nothing is reported and nothing written. -/
theorem applyFixes_fixless_rejected_silently_witness :
    applyFixes cfg0 noRegex exFs [exNoFix, exEmptyReplace] = (exFs, []) :=
  applyFixes_fixless_rejected_silently cfg0 noRegex exFs [exNoFix, exEmptyReplace]
    (by
      intro i hi
      rcases List.mem_cons.mp hi with h | h
      · subst h
        exact trivial
      · rcases List.mem_cons.mp h with h2 | h2
        · subst h2
          exact Or.inr rfl
        · cases h2)

/-! ## C4 -/

/-- Sequential composition of the per-file fix loop: processing `g1 ++ g2`
applies `g2` to the working copy left by `g1` and concatenates the results, so
each fix is matched against the cumulative content and a failure never aborts
the remainder. -/
theorem fixLoop_append (engine : RegexEngine) (orig : String) (bk : Option String)
    (p : String) (g1 : List Issue) :
    ∀ (c : String) (g2 : List Issue),
      fixLoop engine orig bk p c (g1 ++ g2) =
        ((fixLoop engine orig bk p (fixLoop engine orig bk p c g1).1 g2).1,
          (fixLoop engine orig bk p c g1).2 ++
            (fixLoop engine orig bk p (fixLoop engine orig bk p c g1).1 g2).2) := by
  induction g1 with
  | nil =>
    intro c g2
    simp [fixLoop]
  | cons i rest ih =>
    intro c g2
    simp only [List.cons_append, fixLoop]
    cases hfx : i.fix with
    | none => exact ih c g2
    | some f =>
      cases hso : stepOutcome engine c i with
      | none => simp [ih c g2]
      | some c2 => simp [ih c2 g2]

/-- C4: within one file group, fixes apply sequentially to the cumulative
in-memory working copy (the composition law), and in the concrete scenario —
fix 2's search `xyz` exists only after fix 1 rewrites `abc` to `xyz` — both
fixes succeed in declared order producing `uvw`, while in the reversed order
fix 2 fails and fix 1 still succeeds, leaving `xyz`: a failed fix does not
abort the rest of the group. -/
theorem fixes_applied_sequentially :
    (∀ (engine : RegexEngine) (orig : String) (bk : Option String) (p c : String)
        (g1 g2 : List Issue),
      fixLoop engine orig bk p c (g1 ++ g2) =
        ((fixLoop engine orig bk p (fixLoop engine orig bk p c g1).1 g2).1,
          (fixLoop engine orig bk p c g1).2 ++
            (fixLoop engine orig bk p (fixLoop engine orig bk p c g1).1 g2).2))
    ∧ jsIncludes "abc" "xyz" = false
    ∧ jsIncludes "xyz" "xyz" = true
    ∧ ((applyFixes cfg0 noRegex exFs [exI1, exI2]).2.map fun r => (r.issueId, r.success)) =
        [("1", true), ("2", true)]
    ∧ mapGet (applyFixes cfg0 noRegex exFs [exI1, exI2]).1 "a.ts" = some "uvw"
    ∧ ((applyFixes cfg0 noRegex exFs [exI2, exI1]).2.map fun r => (r.issueId, r.success)) =
        [("2", false), ("1", true)]
    ∧ mapGet (applyFixes cfg0 noRegex exFs [exI2, exI1]).1 "a.ts" = some "xyz" :=
  ⟨fun engine orig bk p c g1 g2 => fixLoop_append engine orig bk p g1 c g2,
    by decide, by decide, by decide, by decide, by decide, by decide⟩

/-! ## C5 -/

theorem fixLoop_result_fields (engine : RegexEngine) (orig : String) (bk : Option String)
    (p : String) :
    ∀ (g : List Issue) (c : String), ∀ r ∈ (fixLoop engine orig bk p c g).2,
      r.filePath = p ∧ (∃ i ∈ g, r.issueId = i.id)
      ∧ r.backupPath = (if r.success = true then bk else none) := by
  intro g
  induction g with
  | nil =>
    intro c r hr
    simp [fixLoop] at hr
  | cons i rest ih =>
    intro c r hr
    simp only [fixLoop] at hr
    have tail :
        ∀ c', r ∈ (fixLoop engine orig bk p c' rest).2 →
          r.filePath = p ∧ (∃ j ∈ i :: rest, r.issueId = j.id)
          ∧ r.backupPath = (if r.success = true then bk else none) := by
      intro c' hr'
      obtain ⟨h1, ⟨j, hj, hjid⟩, h3⟩ := ih c' r hr'
      exact ⟨h1, ⟨j, List.mem_cons_of_mem _ hj, hjid⟩, h3⟩
    have head_fail :
        r = failRes p i.id (errOrDefault (applyFix engine c i).error) →
          r.filePath = p ∧ (∃ j ∈ i :: rest, r.issueId = j.id)
          ∧ r.backupPath = (if r.success = true then bk else none) := by
      intro hre
      subst hre
      exact ⟨rfl, ⟨i, List.mem_cons_self _ _, rfl⟩, rfl⟩
    cases hfx : i.fix with
    | none =>
      rw [hfx] at hr
      exact tail c hr
    | some f =>
      rw [hfx] at hr
      cases hso : stepOutcome engine c i with
      | none =>
        rw [hso] at hr
        rcases List.mem_cons.mp hr with hre | hre
        · exact head_fail hre
        · exact tail c hre
      | some c2 =>
        rw [hso] at hr
        rcases List.mem_cons.mp hr with hre | hre
        · subst hre
          exact ⟨rfl, ⟨i, List.mem_cons_self _ _, rfl⟩, rfl⟩
        · exact tail c2 hre

theorem fixFile_result_fields (cfg : SolverConfig) (engine : RegexEngine) (fs : FS)
    (p : String) (g : List Issue) (r : FixResult)
    (hr : r ∈ (fixFile cfg engine fs p g).2) :
    r.filePath = p ∧ (∃ i ∈ g, r.issueId = i.id)
    ∧ r.backupPath = (if r.success = true ∧ cfg.createBackups = true ∧ cfg.dryRun = false
        then some (p ++ cfg.backupSuffix) else none)
    ∧ (r.success = true → (mapGet fs p).isSome = true) := by
  unfold fixFile at hr
  cases hg : mapGet fs p with
  | none =>
    rw [hg] at hr
    simp only [] at hr
    obtain ⟨i, hi, hri⟩ := List.mem_map.mp hr
    refine ⟨?_, ⟨i, hi, ?_⟩, ?_, ?_⟩
    · rw [← hri]
      rfl
    · rw [← hri]
      rfl
    · rw [← hri]
      simp [failRes]
    · rw [← hri]
      intro hcontra
      simp [failRes] at hcontra
  | some orig =>
    rw [hg] at hr
    simp only [] at hr
    obtain ⟨h1, h2, h3⟩ := fixLoop_result_fields engine orig _ p g orig r hr
    refine ⟨h1, h2, ?_, fun _ => rfl⟩
    rw [h3]
    cases hs : r.success
    · simp
    · cases hcb : cfg.createBackups
      · simp [hcb]
      · cases hdr : cfg.dryRun
        · simp [hcb, hdr]
        · simp [hcb, hdr]

theorem processGroups_result_fields (cfg : SolverConfig) (engine : RegexEngine) :
    ∀ (gs : List (String × List Issue)) (fs : FS), ∀ r ∈ (processGroups cfg engine fs gs).2,
      ∃ p g, (p, g) ∈ gs ∧ r.filePath = p ∧ (∃ i ∈ g, r.issueId = i.id)
      ∧ r.backupPath = (if r.success = true ∧ cfg.createBackups = true ∧ cfg.dryRun = false
          then some (p ++ cfg.backupSuffix) else none) := by
  intro gs
  induction gs with
  | nil =>
    intro fs r hr
    simp [processGroups] at hr
  | cons pg rest ih =>
    intro fs r hr
    obtain ⟨p0, g0⟩ := pg
    simp only [processGroups] at hr
    rcases List.mem_append.mp hr with h | h
    · obtain ⟨h1, h2, h3, _⟩ := fixFile_result_fields cfg engine fs p0 g0 r h
      exact ⟨p0, g0, List.mem_cons_self _ _, h1, h2, h3⟩
    · obtain ⟨p, g, hmem, hrest⟩ := ih _ r h
      exact ⟨p, g, List.mem_cons_of_mem _ hmem, hrest⟩

/-- C5 counterexample: a well-formed fix whose search is absent from `a.ts`
fails, and a snapshot of `a.ts` is created (backups enabled, before any fix
attempt) — yet the failed `PatchResult` carries no snapshot path, refuting
"present iff a snapshot was created for this file in this pass". -/
theorem backupPath_counterexample :
    ((applyFixes cfg0 noRegex exFs [exBadSearch]).2.map (·.backupPath)) = [none]
    ∧ ((applyFixes cfg0 noRegex exFs [exBadSearch]).2.map (·.success)) = [false]
    ∧ mapGet (applyFixes cfg0 noRegex exFs [exBadSearch]).1 "a.ts.llm-guardian-backup" =
        some "abc" :=
  ⟨by decide, by decide, by decide⟩

/-- C5 (amended): a `PatchResult` of `applyFixes` carries the snapshot path
exactly when it is a successful result produced with backups enabled and
dry-run off; failed results never carry it, even when a snapshot was created
for their file in the pass. -/
theorem backupPath_iff_success_and_backups (cfg : SolverConfig) (engine : RegexEngine)
    (fs : FS) (issues : List Issue) (r : FixResult)
    (hr : r ∈ (applyFixes cfg engine fs issues).2) :
    r.backupPath = (if r.success = true ∧ cfg.createBackups = true ∧ cfg.dryRun = false
      then some (r.filePath ++ cfg.backupSuffix) else none) := by
  obtain ⟨p, g, _, hfp, _, hbp⟩ :=
    processGroups_result_fields cfg engine _ fs r hr
  rw [hbp, hfp]

/-- Witness for C5's amended theorem: the successful result of the scenario
fix carries exactly the snapshot path of its file. -/
theorem backupPath_iff_success_and_backups_witness :
    (successRes "abc" (some "a.ts.llm-guardian-backup") "a.ts" exI1 "xyz").backupPath =
      (if (successRes "abc" (some "a.ts.llm-guardian-backup") "a.ts" exI1 "xyz").success = true
          ∧ cfg0.createBackups = true ∧ cfg0.dryRun = false
        then some ((successRes "abc" (some "a.ts.llm-guardian-backup") "a.ts" exI1 "xyz").filePath
          ++ cfg0.backupSuffix)
        else none) :=
  backupPath_iff_success_and_backups cfg0 noRegex exFs [exI1]
    (successRes "abc" (some "a.ts.llm-guardian-backup") "a.ts" exI1 "xyz") (by decide)

/-! ## C7 -/

theorem foldl_append_map {α β : Type} (f : α → β) :
    ∀ (L : List (List α)) (acc : List β),
      L.foldl (fun acc b => acc ++ b.map f) acc = acc ++ L.flatten.map f := by
  intro L
  induction L with
  | nil =>
    intro acc
    simp
  | cons b rest ih =>
    intro acc
    rw [List.foldl_cons, ih, List.flatten_cons, List.map_append, List.append_assoc]

/-- `Promise.all` over a batch is an elementwise map, and the sequential fold
over the batches therefore maps `enrichIssue` over the whole eligible list. -/
theorem processBatched_eq_map (provider : Provider) (cfg : ProposerConfig)
    (issues : List Issue) (fileMap : List (String × AnalysisFile)) :
    processBatched provider cfg issues fileMap =
      issues.map (enrichIssue provider fileMap) := by
  unfold processBatched
  rw [foldl_append_map, (chunkList_bounded cfg.maxConcurrent issues).2]
  rfl

theorem enrichIssues_id_of_unavailable (provider : Provider) (cfg : ProposerConfig)
    (issues : List Issue) (files : List AnalysisFile)
    (h : provider.available = false) :
    enrichIssues provider cfg issues files = issues := by
  unfold enrichIssues
  rw [h]
  rfl

theorem enrichIssues_eq_of_available (provider : Provider) (cfg : ProposerConfig)
    (issues : List Issue) (files : List AnalysisFile)
    (h : provider.available = true) :
    enrichIssues provider cfg issues files =
      if (issues.filter fun j => cfg.enabledCategories.contains j.category).isEmpty = true
      then issues
      else
        issues.map fun issue =>
          (mapGet
            (List.foldl (fun m x => mapSet m (mergeKey x) x) []
              (processBatched provider cfg
                (issues.filter fun j => cfg.enabledCategories.contains j.category)
                (files.foldl (fun m f => mapSet m f.path f) [])))
            (mergeKey issue)).getD issue := by
  unfold enrichIssues
  rw [h]
  rfl

/-- Enrichment never changes the merge key: only the `fix` field can differ. -/
theorem mergeKey_enrichIssue (provider : Provider)
    (fileMap : List (String × AnalysisFile)) (i : Issue) :
    mergeKey (enrichIssue provider fileMap i) = mergeKey i := by
  cases hb : buildContext i fileMap with
  | none => simp [enrichIssue, hb]
  | some ctx =>
    cases hg : provider.generateFix i ctx with
    | none => simp [enrichIssue, hb, hg]
    | some f => simp [enrichIssue, hb, hg, mergeKey]

theorem enrichIssue_cases (provider : Provider)
    (fileMap : List (String × AnalysisFile)) (i : Issue) :
    enrichIssue provider fileMap i = i
    ∨ ∃ f, enrichIssue provider fileMap i = { i with fix := some f } := by
  cases hb : buildContext i fileMap with
  | none => exact Or.inl (by simp [enrichIssue, hb])
  | some ctx =>
    cases hg : provider.generateFix i ctx with
    | none => exact Or.inl (by simp [enrichIssue, hb, hg])
    | some f => exact Or.inr ⟨f, by simp [enrichIssue, hb, hg]⟩

theorem foldl_mapSet_get_of_absent {α : Type} (keyOf : α → String) (key : String) :
    ∀ (es : List α) (m0 : List (String × α)),
      (∀ e ∈ es, keyOf e ≠ key) →
      mapGet (es.foldl (fun m e => mapSet m (keyOf e) e) m0) key = mapGet m0 key := by
  intro es
  induction es with
  | nil =>
    intro m0 _
    rfl
  | cons e1 rest ih =>
    intro m0 habs
    rw [List.foldl_cons, ih _ (fun x hx => habs x (List.mem_cons_of_mem _ hx)),
      mapGet_mapSet_ne _ _ _ _ (fun hh => habs e1 (List.mem_cons_self _ _) hh.symm)]

theorem foldl_mapSet_get_of_unique {α : Type} (keyOf : α → String) (key : String) (e : α) :
    ∀ (es : List α) (m0 : List (String × α)),
      e ∈ es → keyOf e = key →
      (∀ x ∈ es, keyOf x = key → x = e) →
      mapGet (es.foldl (fun m x => mapSet m (keyOf x) x) m0) key = some e := by
  intro es
  induction es with
  | nil =>
    intro m0 hmem
    cases hmem
  | cons e1 rest ih =>
    intro m0 hmem hke huniq
    rw [List.foldl_cons]
    by_cases hrest : ∃ x ∈ rest, keyOf x = key
    · obtain ⟨x, hx, hkx⟩ := hrest
      have hxe : x = e := huniq x (List.mem_cons_of_mem _ hx) hkx
      subst hxe
      exact ih _ hx hke (fun y hy hk => huniq y (List.mem_cons_of_mem _ hy) hk)
    · push_neg at hrest
      rw [foldl_mapSet_get_of_absent keyOf key rest _ hrest]
      have he1 : e = e1 := by
        rcases List.mem_cons.mp hmem with h | h
        · exact h
        · exact absurd hke (hrest e h)
      subst he1
      rw [hke]
      exact mapGet_mapSet_same m0 key e

/-- The two colliding findings of the C7 counterexample: merge keys
`"a" + "b" + "12"` and `"a" + "b1" + "2"` coincide. -/
def colA : Issue := { mkIss "a" "b" none with line := 12, category := "security" }

/-- Partner of `colA` in the key collision; its category is enabled. -/
def colB : Issue := { mkIss "a" "b1" none with line := 2, category := "hallucination" }

/-- C7 counterexample: with an available engine (that returns no fix), the
merge keys of `colA` (category `security`, outside the enabled set) and `colB`
(eligible) collide, so position 0 of the output is `colB`, not the unmodified
input finding `colA` — refuting both "each output element equals the
corresponding input finding" and "findings with categories outside the set are
returned unmodified". -/
theorem enrichIssues_key_collision_counterexample :
    (enrichIssues provNoFix pcfg0 [colA, colB] []).get? 0 = some colB
    ∧ colB ≠ colA
    ∧ pcfg0.enabledCategories.contains colA.category = false
    ∧ mergeKey colA = mergeKey colB :=
  ⟨by decide, by decide, by decide, by decide⟩

/-- C7 (amended): provided the merge keys `id + filePath + line` are pairwise
injective over the input findings, the Enricher's output has the same length
and order as its input, each output element equals the corresponding input
finding or that finding with a fix attached, and a finding whose category is
outside the enabled set is returned unmodified.  (With colliding merge keys, a
finding can instead be replaced by another finding's enriched copy.) -/
theorem enrichIssues_shape (provider : Provider) (cfg : ProposerConfig)
    (issues : List Issue) (files : List AnalysisFile)
    (hkeys : ∀ i ∈ issues, ∀ j ∈ issues, mergeKey i = mergeKey j → i = j)
    (k : Nat) (i : Issue) (hik : issues.get? k = some i) :
    (enrichIssues provider cfg issues files).length = issues.length
    ∧ (cfg.enabledCategories.contains i.category = false →
        (enrichIssues provider cfg issues files).get? k = some i)
    ∧ ((enrichIssues provider cfg issues files).get? k = some i
        ∨ ∃ f, (enrichIssues provider cfg issues files).get? k =
            some { i with fix := some f }) := by
  have himem : i ∈ issues := List.get?_mem hik
  by_cases hav : provider.available = true
  · rw [enrichIssues_eq_of_available provider cfg issues files hav]
    by_cases hemp :
        (issues.filter fun j => cfg.enabledCategories.contains j.category).isEmpty = true
    · rw [if_pos hemp]
      exact ⟨rfl, fun _ => hik, Or.inl hik⟩
    · rw [if_neg hemp]
      have hmapget : ∀ j ∈ issues,
          mapGet
            (List.foldl (fun m x => mapSet m (mergeKey x) x) []
              ((issues.filter fun x => cfg.enabledCategories.contains x.category).map
                (enrichIssue provider (files.foldl (fun m f => mapSet m f.path f) []))))
            (mergeKey j) =
            if cfg.enabledCategories.contains j.category then
              some (enrichIssue provider (files.foldl (fun m f => mapSet m f.path f) []) j)
            else none := by
        intro j hj
        by_cases helig : cfg.enabledCategories.contains j.category = true
        · rw [if_pos helig]
          apply foldl_mapSet_get_of_unique
          · exact List.mem_map_of_mem _ (List.mem_filter.mpr ⟨hj, helig⟩)
          · exact mergeKey_enrichIssue _ _ _
          · intro x hx hkx
            obtain ⟨j2, hj2, hj2x⟩ := List.mem_map.mp hx
            have hj2mem : j2 ∈ issues := (List.mem_filter.mp hj2).1
            rw [← hj2x] at hkx
            rw [mergeKey_enrichIssue] at hkx
            rw [hkeys j2 hj2mem j hj hkx] at hj2x
            rw [← hj2x]
        · rw [if_neg helig]
          rw [foldl_mapSet_get_of_absent]
          · rfl
          · intro x hx hkx
            obtain ⟨j2, hj2, hj2x⟩ := List.mem_map.mp hx
            have hj2mem : j2 ∈ issues := (List.mem_filter.mp hj2).1
            have hj2elig := (List.mem_filter.mp hj2).2
            rw [← hj2x, mergeKey_enrichIssue] at hkx
            rw [hkeys j2 hj2mem j hj hkx] at hj2elig
            exact helig hj2elig
      refine ⟨by simp, ?_, ?_⟩
      · intro hnelig
        rw [List.get?_map, hik]
        simp only [Option.map_some']
        rw [processBatched_eq_map, hmapget i himem, hnelig, if_neg Bool.false_ne_true]
        rfl
      · rw [List.get?_map, hik]
        simp only [Option.map_some']
        rw [processBatched_eq_map, hmapget i himem]
        by_cases helig : cfg.enabledCategories.contains i.category = true
        · rw [if_pos helig]
          rcases enrichIssue_cases provider (files.foldl (fun m f => mapSet m f.path f) []) i
            with hsame | ⟨f, hfix⟩
          · exact Or.inl (by rw [Option.getD_some, hsame])
          · exact Or.inr ⟨f, by rw [Option.getD_some, hfix]⟩
        · rw [if_neg helig]
          exact Or.inl rfl
  · have hfalse : provider.available = false := by
      cases h : provider.available
      · rfl
      · exact absurd h hav
    rw [enrichIssues_id_of_unavailable provider cfg issues files hfalse]
    exact ⟨rfl, fun _ => hik, Or.inl hik⟩

/-- Witness for C7's amended theorem at a single security finding (keys
trivially injective): it is returned unmodified. -/
theorem enrichIssues_shape_witness :
    (enrichIssues provNoFix pcfg0 [colA] []).length = ([colA] : List Issue).length
    ∧ (pcfg0.enabledCategories.contains colA.category = false →
        (enrichIssues provNoFix pcfg0 [colA] []).get? 0 = some colA)
    ∧ ((enrichIssues provNoFix pcfg0 [colA] []).get? 0 = some colA
        ∨ ∃ f, (enrichIssues provNoFix pcfg0 [colA] []).get? 0 =
            some { colA with fix := some f }) :=
  enrichIssues_shape provNoFix pcfg0 [colA] [] (by decide) 0 colA (by decide)

/-! ## C3 -/

/-- The content transition of one iteration of the fix loop: the new working
copy on success, the unchanged one on failure (or when the issue has no
fix). -/
def applyFixStep (engine : RegexEngine) (c : String) (i : Issue) : String :=
  (stepOutcome engine c i).getD c

/-- The working copy after applying a list of fixes in order. -/
def workingContent (engine : RegexEngine) (c : String) (g : List Issue) : String :=
  g.foldl (applyFixStep engine) c

theorem fixLoop_content (engine : RegexEngine) (orig : String) (bk : Option String)
    (p : String) :
    ∀ (g : List Issue) (c : String),
      (fixLoop engine orig bk p c g).1 = workingContent engine c g := by
  intro g
  induction g with
  | nil =>
    intro c
    rfl
  | cons i rest ih =>
    intro c
    simp only [fixLoop, workingContent, List.foldl_cons]
    cases hfx : i.fix with
    | none =>
      rw [ih c]
      have hstep : applyFixStep engine c i = c := by
        simp [applyFixStep, stepOutcome, applyFix, hfx]
      rw [hstep]
      rfl
    | some f =>
      cases hso : stepOutcome engine c i with
      | none =>
        have hstep : applyFixStep engine c i = c := by
          simp [applyFixStep, hso]
        rw [hstep]
        exact ih c
      | some c2 =>
        have hstep : applyFixStep engine c i = c2 := by
          simp [applyFixStep, hso]
        rw [hstep]
        exact ih c2

theorem fixLoop_get_success (engine : RegexEngine) (orig : String) (bk : Option String)
    (p : String) :
    ∀ (g : List Issue) (c : String) (k : Nat),
      (∀ i ∈ g, i.fix.isSome = true) →
      ((fixLoop engine orig bk p c g).2.get? k).map (·.success) =
        (g.get? k).map
          (fun i => (stepOutcome engine (workingContent engine c (g.take k)) i).isSome) := by
  intro g
  induction g with
  | nil =>
    intro c k _
    rfl
  | cons i rest ih =>
    intro c k hfx
    have hifx : i.fix.isSome = true := hfx i (List.mem_cons_self _ _)
    have hrest : ∀ j ∈ rest, j.fix.isSome = true :=
      fun j hj => hfx j (List.mem_cons_of_mem _ hj)
    simp only [fixLoop]
    cases hf : i.fix with
    | none =>
      rw [hf] at hifx
      cases hifx
    | some f =>
      cases hso : stepOutcome engine c i with
      | none =>
        cases k with
        | zero =>
          simp [workingContent, hso, failRes, List.get?]
        | succ k0 =>
          have hstep : applyFixStep engine c i = c := by
            simp [applyFixStep, hso]
          simp only [List.get?, List.take_succ_cons, workingContent, List.foldl_cons, hstep]
          exact ih c k0 hrest
      | some c2 =>
        cases k with
        | zero =>
          simp [successRes, workingContent, hso, List.get?]
        | succ k0 =>
          have hstep : applyFixStep engine c i = c2 := by
            simp [applyFixStep, hso]
          simp only [List.get?, List.take_succ_cons, workingContent, List.foldl_cons, hstep]
          exact ih c2 k0 hrest

theorem stepOutcome_none_of_unmatched (engine : RegexEngine) (c : String) (i : Issue)
    (f : Fix) (hf : i.fix = some f) (ht : f.type ≠ FixType.regexReplace)
    (hm : jsIncludes c f.search = false) : stepOutcome engine c i = none := by
  cases hft : f.type with
  | stringReplace => simp [stepOutcome, applyFix, hf, hft, applyStringReplace, hm]
  | llmGenerated => simp [stepOutcome, applyFix, hf, hft, applyStringReplace, hm]
  | astTransform => simp [stepOutcome, applyFix, hf, hft]
  | regexReplace => exact absurd hft ht

theorem fixLoop_content_of_all_failed (engine : RegexEngine) (orig : String)
    (bk : Option String) (p : String) :
    ∀ (g : List Issue) (c : String),
      (∀ r ∈ (fixLoop engine orig bk p c g).2, r.success = false) →
      (fixLoop engine orig bk p c g).1 = c := by
  intro g
  induction g with
  | nil =>
    intro c _
    rfl
  | cons i rest ih =>
    intro c hall
    simp only [fixLoop] at hall ⊢
    cases hfx : i.fix with
    | none =>
      rw [hfx] at hall
      exact ih c hall
    | some f =>
      rw [hfx] at hall
      cases hso : stepOutcome engine c i with
      | none =>
        rw [hso] at hall
        exact ih c (fun r hr => hall r (List.mem_cons_of_mem _ hr))
      | some c2 =>
        rw [hso] at hall
        have := hall (successRes orig bk p i c2) (List.mem_cons_self _ _)
        simp [successRes] at this

theorem fixableFilter_fix_isSome (cfg : SolverConfig) (i : Issue)
    (h : fixableFilter cfg i = true) : i.fix.isSome = true := by
  cases hfx : i.fix with
  | none =>
    rw [fixableFilter, hfx] at h
    cases h
  | some f => rfl

theorem foldl_insertGroup_const (p : String) :
    ∀ (l : List Issue) (acc : List Issue), (∀ i ∈ l, i.filePath = p) →
      l.foldl insertGroup [(p, acc)] = [(p, acc ++ l)] := by
  intro l
  induction l with
  | nil =>
    intro acc _
    simp
  | cons x rest ih =>
    intro acc hall
    rw [List.foldl_cons]
    have hx : p = x.filePath := (hall x (List.mem_cons_self _ _)).symm
    have hins : insertGroup [(p, acc)] x = [(p, acc ++ [x])] := by
      simp [insertGroup, if_pos hx]
    rw [hins, ih (acc ++ [x]) (fun j hj => hall j (List.mem_cons_of_mem _ hj)),
      List.append_assoc]
    rfl

theorem groupByFile_const (p : String) (l : List Issue) (hne : l ≠ [])
    (hall : ∀ i ∈ l, i.filePath = p) : groupByFile l = [(p, l)] := by
  match l with
  | [] => exact absurd rfl hne
  | x :: rest =>
    unfold groupByFile
    rw [List.foldl_cons]
    have hx : x.filePath = p := hall x (List.mem_cons_self _ _)
    have hins : insertGroup [] x = [(p, [x])] := by
      simp [insertGroup, hx]
    rw [hins, foldl_insertGroup_const p rest [x]
      (fun j hj => hall j (List.mem_cons_of_mem _ hj))]
    rfl

theorem string_ne_self_append (p s : String) (hs : s ≠ "") : p ≠ p ++ s := by
  intro h
  have hlen : p.length = p.length + s.length := by
    conv_lhs => rw [h]
    exact String.length_append p s
  have hz : s.length = 0 := by omega
  exact hs (String.ext (List.length_eq_zero.mp hz))

/-- C3 counterexample: the finding `exEmptyReplace` carries a fix whose search
`zzz` does not occur in the file content `abc`, yet `applyFixes` returns no
`PatchResult` at all for it — the fix's empty (falsy) replace makes the
up-front filter drop the finding silently, so the promised `success = false`
result does not exist.  (The file is indeed left unchanged.) -/
theorem applyFixes_unmatched_search_counterexample :
    jsIncludes "abc" "zzz" = false
    ∧ (applyFixes cfg0 noRegex exFs [exEmptyReplace]).2 = []
    ∧ (applyFixes cfg0 noRegex exFs [exEmptyReplace]).1 = exFs :=
  ⟨by decide, by decide, by decide⟩

/-- C3 (amended): for every finding that survives the up-front filter and whose
fix applies by literal string replacement (types string-replace and
llm-generated; ast-transform always fails; regex-replace matches by pattern,
not by substring, and is outside this property), if the fix's search string
does not occur in the current working content — the cumulative content after
the preceding fixes of the group — then its `PatchResult` has
`success = false`; and if every fix of the file's group fails, the file's
content after the call is byte-identical to before (no write).  Stated over a
single-file input set, which is general for the per-file claim since files are
processed independently. -/
theorem applyFixes_unmatched_search_fails (cfg : SolverConfig) (engine : RegexEngine)
    (fs : FS) (p orig : String) (issues : List Issue) (k : Nat) (i : Issue) (f : Fix)
    (hall : ∀ j ∈ issues, j.filePath = p)
    (hfile : mapGet fs p = some orig)
    (hsfx : cfg.backupSuffix ≠ "")
    (hk : (issues.filter (fixableFilter cfg)).get? k = some i)
    (hf : i.fix = some f) (ht : f.type ≠ FixType.regexReplace)
    (hm : jsIncludes
        (workingContent engine orig ((issues.filter (fixableFilter cfg)).take k)) f.search
        = false) :
    ((applyFixes cfg engine fs issues).2.get? k).map (·.success) = some false
    ∧ ((∀ r ∈ (applyFixes cfg engine fs issues).2, r.success = false) →
        mapGet (applyFixes cfg engine fs issues).1 p = some orig) := by
  have hgne : issues.filter (fixableFilter cfg) ≠ [] := by
    intro hnil
    rw [hnil] at hk
    cases hk
  have hgall : ∀ j ∈ issues.filter (fixableFilter cfg), j.filePath = p :=
    fun j hj => hall j (List.mem_filter.mp hj).1
  have hgb : groupByFile (issues.filter (fixableFilter cfg)) =
      [(p, issues.filter (fixableFilter cfg))] :=
    groupByFile_const p _ hgne hgall
  have happ : applyFixes cfg engine fs issues =
      fixFile cfg engine fs p (issues.filter (fixableFilter cfg)) := by
    unfold applyFixes
    rw [hgb]
    simp [processGroups]
  rw [happ]
  unfold fixFile
  rw [hfile]
  simp only
  have hfixes : ∀ j ∈ issues.filter (fixableFilter cfg), j.fix.isSome = true :=
    fun j hj => fixableFilter_fix_isSome cfg j (List.mem_filter.mp hj).2
  constructor
  · rw [fixLoop_get_success engine orig _ p _ orig k hfixes, hk]
    simp only [Option.map_some']
    rw [stepOutcome_none_of_unmatched engine _ i f hf ht hm]
    rfl
  · intro hfail
    have hcfin : (fixLoop engine orig
        (if (cfg.createBackups && !cfg.dryRun) = true then some (p ++ cfg.backupSuffix)
          else none) p orig (issues.filter (fixableFilter cfg))).1 = orig :=
      fixLoop_content_of_all_failed engine orig _ p _ orig hfail
    rw [hcfin]
    have hbne : (orig != orig) = false := by
      simp
    rw [hbne, Bool.and_false, if_neg Bool.false_ne_true]
    cases hbk : (cfg.createBackups && !cfg.dryRun) with
    | false =>
      rw [if_neg Bool.false_ne_true]
      exact hfile
    | true =>
      rw [if_pos rfl]
      rw [mapGet_mapSet_ne fs (p ++ cfg.backupSuffix) p orig
        (string_ne_self_append p cfg.backupSuffix hsfx)]
      exact hfile

/-- Witness for C3's amended theorem: the single well-formed fix of
`exBadSearch` whose search `zzz` is absent from `abc`; its result fails and
`a.ts` keeps its content. -/
theorem applyFixes_unmatched_search_fails_witness :
    (((applyFixes cfg0 noRegex exFs [exBadSearch]).2.get? 0).map (·.success) = some false)
    ∧ ((∀ r ∈ (applyFixes cfg0 noRegex exFs [exBadSearch]).2, r.success = false) →
        mapGet (applyFixes cfg0 noRegex exFs [exBadSearch]).1 "a.ts" = some "abc") :=
  applyFixes_unmatched_search_fails cfg0 noRegex exFs "a.ts" "abc" [exBadSearch] 0
    exBadSearch (srFix "zzz" "w") (by decide) (by decide) (by decide) (by decide)
    (by decide) (by decide) (by decide)

/-! ## C1: string lemmas -/

theorem isPrefixOf_self (cs : List Char) : cs.isPrefixOf cs = true := by
  induction cs with
  | nil => rfl
  | cons c cs ih => simp [List.isPrefixOf, ih]

theorem isPrefixOf_iff_exists :
    ∀ (p l : List Char), p.isPrefixOf l = true ↔ ∃ t, l = p ++ t := by
  intro p
  induction p with
  | nil =>
    intro l
    simp [List.isPrefixOf]
  | cons c cs ih =>
    intro l
    cases l with
    | nil =>
      simp [List.isPrefixOf]
    | cons x xs =>
      simp only [List.isPrefixOf, Bool.and_eq_true, beq_iff_eq, ih xs]
      constructor
      · rintro ⟨hcx, t, ht⟩
        exact ⟨t, by rw [hcx, ht]; rfl⟩
      · rintro ⟨t, ht⟩
        rw [List.cons_append] at ht
        injection ht with h1 h2
        exact ⟨h1.symm, t, h2⟩

theorem containsSub_self (s : List Char) : containsSub s s = true := by
  cases s with
  | nil => rfl
  | cons c cs => simp [containsSub, isPrefixOf_self]

theorem containsSub_append_self (a s : List Char) : containsSub (a ++ s) s = true := by
  induction a with
  | nil => simpa using containsSub_self s
  | cons c a ih =>
    rw [List.cons_append]
    cases s with
    | nil => simp [containsSub, List.isPrefixOf]
    | cons x xs =>
      simp only [containsSub, Bool.or_eq_true]
      exact Or.inr ih

theorem containsSub_of_leading (s q : List Char) (h : s.isPrefixOf q = true) :
    containsSub q s = true := by
  cases q with
  | nil =>
    obtain ⟨t, ht⟩ := (isPrefixOf_iff_exists s []).mp h
    have hs : s = [] := by
      cases s with
      | nil => rfl
      | cons c cs => cases ht
    subst hs
    rfl
  | cons x xs =>
    simp only [containsSub, Bool.or_eq_true]
    exact Or.inl h

theorem containsSub_cons_tail (c : Char) (q s : List Char)
    (h : containsSub (c :: q) s = false) : containsSub q s = false := by
  cases s with
  | nil => simp [containsSub, List.isPrefixOf] at h
  | cons y ys =>
    cases q with
    | nil => rfl
    | cons d q' =>
      simp only [containsSub, Bool.or_eq_false_iff] at h ⊢
      exact h.2

theorem not_prefix_self_append (s q : List Char)
    (hov : ∀ k, 0 < k → k < s.length → s.drop k ≠ s.take (s.length - k))
    (hq : containsSub q s = false) (hqne : q ≠ []) :
    s.isPrefixOf (q ++ s) = false := by
  cases hpre : s.isPrefixOf (q ++ s) with
  | false => rfl
  | true =>
    exfalso
    obtain ⟨t, ht⟩ := (isPrefixOf_iff_exists s (q ++ s)).mp hpre
    by_cases hlen : s.length ≤ q.length
    · have htake : s = q.take s.length := by
        have h1 : (q ++ s).take s.length = q.take s.length := by
          rw [List.take_append_eq_append_take, Nat.sub_eq_zero_of_le hlen,
            List.take_zero, List.append_nil]
        have h2 : (s ++ t).take s.length = s := List.take_left s t
        rw [← ht] at h2
        rw [h2] at h1
        exact h1
      have hpref : s.isPrefixOf q = true := by
        rw [isPrefixOf_iff_exists]
        refine ⟨q.drop s.length, ?_⟩
        conv_lhs => rw [← List.take_append_drop s.length q]
        rw [← htake]
      rw [containsSub_of_leading s q hpref] at hq
      cases hq
    · push_neg at hlen
      have hqpos : 0 < q.length := by
        cases q with
        | nil => exact absurd rfl hqne
        | cons c cs => simp
      have hs1 : s = q ++ s.take (s.length - q.length) := by
        have h1 : (q ++ s).take s.length = q ++ s.take (s.length - q.length) := by
          rw [List.take_append_eq_append_take, List.take_of_length_le (Nat.le_of_lt hlen)]
        have h2 : (s ++ t).take s.length = s := List.take_left s t
        rw [← ht] at h2
        rw [h2] at h1
        exact h1
      have hdrop : s.drop q.length = s.take (s.length - q.length) := by
        conv_lhs => rw [hs1]
        exact List.drop_left q _
      exact hov q.length hqpos hlen hdrop

theorem replaceFirst_append_self (s : List Char)
    (hov : ∀ k, 0 < k → k < s.length → s.drop k ≠ s.take (s.length - k)) :
    ∀ (q : List Char), containsSub q s = false →
      replaceFirstL s [] (q ++ s) = q := by
  intro q
  induction q with
  | nil =>
    intro _
    cases s with
    | nil => rfl
    | cons c cs =>
      simp only [List.nil_append, replaceFirstL, isPrefixOf_self, if_pos]
      simp
  | cons c q' ih =>
    intro hq
    rw [List.cons_append]
    have hnp : s.isPrefixOf ((c :: q') ++ s) = false :=
      not_prefix_self_append s (c :: q') hov hq (by simp)
    rw [List.cons_append] at hnp
    cases s with
    | nil =>
      rw [containsSub] at hq
      revert hq
      cases q' with
      | nil => intro hq; cases hq
      | cons d q'' => intro hq; cases hq
    | cons y ys =>
      simp only [replaceFirstL, hnp, if_neg, Bool.false_eq_true, not_false_iff, if_neg]
      rw [ih (containsSub_cons_tail c q' (y :: ys) hq)]

/-- Absence of non-trivial self-overlap, as a decidable check. -/
def overlapFree (s : List Char) : Bool :=
  (List.range s.length).all fun k => (k == 0) || (s.drop k != s.take (s.length - k))

theorem overlapFree_spec (s : List Char) (h : overlapFree s = true) :
    ∀ k, 0 < k → k < s.length → s.drop k ≠ s.take (s.length - k) := by
  intro k hk0 hks
  have hmem : k ∈ List.range s.length := List.mem_range.mpr hks
  have := (List.all_eq_true.mp h) k hmem
  simp only [Bool.or_eq_true, beq_iff_eq, bne_iff_ne, ne_eq] at this
  rcases this with h0 | hne
  · omega
  · exact hne

theorem string_append_right_cancel (a b s : String) (h : a ++ s = b ++ s) : a = b := by
  apply String.ext
  have hd : a.data ++ s.data = b.data ++ s.data := by
    have := congrArg String.data h
    rwa [String.data_append, String.data_append] at this
  exact List.append_cancel_right hd

theorem string_append_ne_empty (p s : String) (hs : s ≠ "") : p ++ s ≠ "" := by
  intro h
  apply hs
  have hlen := congrArg String.length h
  rw [String.length_append] at hlen
  have : s.length = 0 := by
    have : ("" : String).length = 0 := rfl
    omega
  exact String.ext (List.length_eq_zero.mp this)

theorem jsIncludes_append_self (p s : String) : jsIncludes (p ++ s) s = true := by
  unfold jsIncludes
  have : (p ++ s).toList = p.toList ++ s.toList := String.data_append p s
  rw [this]
  exact containsSub_append_self _ _

theorem jsEndsWith_append_self (p s : String) : jsEndsWith (p ++ s) s = true := by
  unfold jsEndsWith
  have hdata : (p ++ s).toList = p.toList ++ s.toList := String.data_append p s
  rw [hdata]
  have hlen : (p.toList ++ s.toList).length - s.toList.length = p.toList.length := by
    rw [List.length_append]
    omega
  rw [hlen, List.drop_left]
  exact beq_self_eq_true _

theorem exists_of_jsEndsWith (x s : String) (h : jsEndsWith x s = true) :
    ∃ a : List Char, x.toList = a ++ s.toList := by
  unfold jsEndsWith at h
  have hdrop : x.toList.drop (x.toList.length - s.toList.length) = s.toList :=
    eq_of_beq h
  set n := x.toList.length - s.toList.length with hn
  exact ⟨x.toList.take n, by
    rw [← hdrop]
    exact (List.take_append_drop n x.toList).symm⟩

theorem jsIncludes_of_jsEndsWith (x s : String) (h : jsEndsWith x s = true) :
    jsIncludes x s = true := by
  obtain ⟨a, ha⟩ := exists_of_jsEndsWith x s h
  unfold jsIncludes
  rw [ha]
  exact containsSub_append_self _ _

theorem jsReplaceFirst_strip (p : String)
    (hni : jsIncludes p ".llm-guardian-backup" = false) :
    jsReplaceFirst (p ++ ".llm-guardian-backup") ".llm-guardian-backup" "" = p := by
  unfold jsReplaceFirst
  have hdata : (p ++ ".llm-guardian-backup").toList =
      p.toList ++ (".llm-guardian-backup" : String).toList :=
    String.data_append p _
  rw [hdata]
  have hov : ∀ k, 0 < k → k < (".llm-guardian-backup" : String).toList.length →
      (".llm-guardian-backup" : String).toList.drop k ≠
        (".llm-guardian-backup" : String).toList.take
          ((".llm-guardian-backup" : String).toList.length - k) :=
    overlapFree_spec _ (by decide)
  rw [show ("" : String).toList = [] from rfl]
  rw [replaceFirst_append_self _ hov p.toList hni]
  rfl

/-! ## C1: map and filesystem lemmas -/

theorem mem_of_mapGet_eq_some {α : Type} :
    ∀ (m : List (String × α)) (k : String) (v : α),
      mapGet m k = some v → (k, v) ∈ m := by
  intro m
  induction m with
  | nil =>
    intro k v h
    cases h
  | cons e rest ih =>
    intro k v h
    obtain ⟨k1, v1⟩ := e
    simp only [mapGet] at h
    by_cases hk : k1 = k
    · rw [if_pos hk] at h
      injection h with hv
      subst hk
      subst hv
      exact List.mem_cons_self _ _
    · rw [if_neg hk] at h
      exact List.mem_cons_of_mem _ (ih k v h)

theorem mem_mapSet {α : Type} :
    ∀ (m : List (String × α)) (k : String) (v : α) (e : String × α),
      e ∈ mapSet m k v → e ∈ m ∨ e = (k, v) := by
  intro m
  induction m with
  | nil =>
    intro k v e he
    simp [mapSet] at he
    exact Or.inr he
  | cons e1 rest ih =>
    intro k v e he
    obtain ⟨k1, v1⟩ := e1
    simp only [mapSet] at he
    by_cases hk : k1 = k
    · rw [if_pos hk] at he
      rcases List.mem_cons.mp he with h | h
      · subst hk
        exact Or.inr h
      · exact Or.inl (List.mem_cons_of_mem _ h)
    · rw [if_neg hk] at he
      rcases List.mem_cons.mp he with h | h
      · exact Or.inl (h ▸ List.mem_cons_self _ _)
      · rcases ih k v e h with h2 | h2
        · exact Or.inl (List.mem_cons_of_mem _ h2)
        · exact Or.inr h2

theorem keys_mapSet_subset {α : Type} :
    ∀ (m : List (String × α)) (k : String) (v : α) (x : String),
      x ∈ (mapSet m k v).map Prod.fst → x ∈ m.map Prod.fst ∨ x = k := by
  intro m k v x hx
  obtain ⟨e, he, hex⟩ := List.mem_map.mp hx
  rcases mem_mapSet m k v e he with h | h
  · exact Or.inl (hex ▸ List.mem_map_of_mem Prod.fst h)
  · subst h
    exact Or.inr hex.symm

/-- `fixFile` writes only at the file's path and its backup path. -/
theorem fixFile_mapGet_frame (cfg : SolverConfig) (engine : RegexEngine) (fs : FS)
    (p : String) (g : List Issue) (x : String)
    (hx1 : x ≠ p) (hx2 : x ≠ p ++ cfg.backupSuffix) :
    mapGet (fixFile cfg engine fs p g).1 x = mapGet fs x := by
  unfold fixFile
  cases hg : mapGet fs p with
  | none => rfl
  | some orig =>
    simp only
    split
    · split
      · rw [mapGet_mapSet_ne _ _ _ _ hx1, mapGet_mapSet_ne _ _ _ _ hx2]
      · rw [mapGet_mapSet_ne _ _ _ _ hx2]
    · split
      · rw [mapGet_mapSet_ne _ _ _ _ hx1]
      · rfl

/-- With backups on and dry-run off, `fixFile` on an existing file leaves its
pre-patch content at the backup path. -/
theorem fixFile_backup (cfg : SolverConfig) (engine : RegexEngine) (fs : FS)
    (p : String) (g : List Issue) (orig : String)
    (hb : cfg.createBackups = true) (hd : cfg.dryRun = false)
    (hsfx : cfg.backupSuffix ≠ "") (hfile : mapGet fs p = some orig) :
    mapGet (fixFile cfg engine fs p g).1 (p ++ cfg.backupSuffix) = some orig := by
  unfold fixFile
  rw [hfile]
  simp only
  have hbk : (cfg.createBackups && !cfg.dryRun) = true := by
    rw [hb, hd]
    rfl
  split
  · split
    · rw [mapGet_mapSet_ne _ _ _ _
        (fun h => string_ne_self_append p cfg.backupSuffix hsfx h.symm)]
      exact mapGet_mapSet_same fs _ orig
    · exact mapGet_mapSet_same fs _ orig
  · next h => exact absurd hbk h

theorem fixFile_keys_subset (cfg : SolverConfig) (engine : RegexEngine) (fs : FS)
    (p : String) (g : List Issue) (x : String)
    (hx : x ∈ ((fixFile cfg engine fs p g).1.map Prod.fst)) :
    x ∈ fs.map Prod.fst ∨ x = p ++ cfg.backupSuffix ∨ x = p := by
  revert hx
  unfold fixFile
  cases hg : mapGet fs p with
  | none =>
    intro hx
    exact Or.inl hx
  | some orig =>
    simp only
    intro hx
    revert hx
    split
    · split
      · intro hx
        rcases keys_mapSet_subset _ _ _ _ hx with h | h
        · rcases keys_mapSet_subset _ _ _ _ h with h2 | h2
          · exact Or.inl h2
          · exact Or.inr (Or.inl h2)
        · exact Or.inr (Or.inr h)
      · intro hx
        rcases keys_mapSet_subset _ _ _ _ hx with h | h
        · exact Or.inl h
        · exact Or.inr (Or.inl h)
    · split
      · intro hx
        rcases keys_mapSet_subset _ _ _ _ hx with h | h
        · exact Or.inl h
        · exact Or.inr (Or.inr h)
      · intro hx
        exact Or.inl hx

/-- `processGroups` leaves every path outside the group files and their
backups untouched. -/
theorem processGroups_mapGet_frame (cfg : SolverConfig) (engine : RegexEngine) :
    ∀ (gs : List (String × List Issue)) (fs : FS) (x : String),
      (∀ e ∈ gs, x ≠ e.1 ∧ x ≠ e.1 ++ cfg.backupSuffix) →
      mapGet (processGroups cfg engine fs gs).1 x = mapGet fs x := by
  intro gs
  induction gs with
  | nil =>
    intro fs x _
    rfl
  | cons e rest ih =>
    intro fs x hx
    obtain ⟨p0, g0⟩ := e
    simp only [processGroups]
    rw [ih _ x (fun e2 he2 => hx e2 (List.mem_cons_of_mem _ he2))]
    exact fixFile_mapGet_frame cfg engine fs p0 g0 x
      (hx (p0, g0) (List.mem_cons_self _ _)).1 (hx (p0, g0) (List.mem_cons_self _ _)).2

theorem processGroups_keys_subset (cfg : SolverConfig) (engine : RegexEngine) :
    ∀ (gs : List (String × List Issue)) (fs : FS) (x : String),
      x ∈ ((processGroups cfg engine fs gs).1.map Prod.fst) →
      x ∈ fs.map Prod.fst ∨ ∃ e ∈ gs, x = e.1 ++ cfg.backupSuffix ∨ x = e.1 := by
  intro gs
  induction gs with
  | nil =>
    intro fs x hx
    exact Or.inl hx
  | cons e rest ih =>
    intro fs x hx
    obtain ⟨p0, g0⟩ := e
    simp only [processGroups] at hx
    rcases ih _ x hx with h | ⟨e2, he2, h2⟩
    · rcases fixFile_keys_subset cfg engine fs p0 g0 x h with h3 | h3
      · exact Or.inl h3
      · exact Or.inr ⟨(p0, g0), List.mem_cons_self _ _, h3.symm.symm⟩
    · exact Or.inr ⟨e2, List.mem_cons_of_mem _ he2, h2⟩

/-- After `processGroups` with backups on, every successful result's file holds
its pre-pass content at its backup path, and that content is the file's
pre-pass content. -/
theorem processGroups_backup_of_success (cfg : SolverConfig) (engine : RegexEngine)
    (hb : cfg.createBackups = true) (hd : cfg.dryRun = false)
    (hsfx : cfg.backupSuffix ≠ "") :
    ∀ (gs : List (String × List Issue)) (fs : FS) (r : FixResult),
      ((gs.map Prod.fst).Nodup) →
      (∀ e1 ∈ gs, ∀ e2 ∈ gs, e1.1 ≠ e2.1 ++ cfg.backupSuffix) →
      r ∈ (processGroups cfg engine fs gs).2 → r.success = true →
      ∃ orig, mapGet fs r.filePath = some orig
        ∧ mapGet (processGroups cfg engine fs gs).1 (r.filePath ++ cfg.backupSuffix) =
            some orig := by
  intro gs
  induction gs with
  | nil =>
    intro fs r _ _ hr
    simp [processGroups] at hr
  | cons e rest ih =>
    intro fs r hnd hno hr hs
    obtain ⟨p0, g0⟩ := e
    simp only [processGroups] at hr ⊢
    have hndrest : ((rest.map Prod.fst).Nodup) := (List.nodup_cons.mp hnd).2
    have hp0rest : p0 ∉ rest.map Prod.fst := (List.nodup_cons.mp hnd).1
    rcases List.mem_append.mp hr with hmem | hmem
    · obtain ⟨hfp, _, _, hex⟩ := fixFile_result_fields cfg engine fs p0 g0 r hmem
      have hsome := hex hs
      cases hg : mapGet fs p0 with
      | none =>
        rw [hg] at hsome
        simp at hsome
      | some orig =>
        refine ⟨orig, by rw [hfp]; exact hg, ?_⟩
        rw [hfp]
        rw [processGroups_mapGet_frame cfg engine rest _ (p0 ++ cfg.backupSuffix) ?_]
        · exact fixFile_backup cfg engine fs p0 g0 orig hb hd hsfx hg
        · intro e2 he2
          constructor
          · intro hcontra
            exact hno e2 (List.mem_cons_of_mem _ he2) (p0, g0) (List.mem_cons_self _ _)
              hcontra.symm
          · intro hcontra
            have : e2.1 = p0 := string_append_right_cancel _ _ _ hcontra.symm
            exact hp0rest (this ▸ List.mem_map_of_mem Prod.fst he2)
    · obtain ⟨orig, h1, h2⟩ := ih _ r hndrest
        (fun e1 he1 e2 he2 =>
          hno e1 (List.mem_cons_of_mem _ he1) e2 (List.mem_cons_of_mem _ he2)) hmem hs
      obtain ⟨p1, g1, hpg1, hfp1, _, _⟩ :=
        processGroups_result_fields cfg engine rest _ r hmem
      refine ⟨orig, ?_, h2⟩
      rw [← h1]
      symm
      apply fixFile_mapGet_frame
      · rw [hfp1]
        intro hcontra
        exact hp0rest (hcontra ▸ List.mem_map_of_mem Prod.fst hpg1)
      · rw [hfp1]
        intro hcontra
        exact hno (p1, g1) (List.mem_cons_of_mem _ hpg1) (p0, g0) (List.mem_cons_self _ _)
          hcontra

/-! ## C1: groupByFile key lemmas -/

theorem insertGroup_keys (i : Issue) :
    ∀ (gs : List (String × List Issue)),
      ((insertGroup gs i).map Prod.fst) =
        if i.filePath ∈ gs.map Prod.fst then gs.map Prod.fst
        else gs.map Prod.fst ++ [i.filePath] := by
  intro gs
  induction gs with
  | nil => simp [insertGroup]
  | cons e rest ih =>
    obtain ⟨p1, g1⟩ := e
    simp only [insertGroup]
    by_cases hp : p1 = i.filePath
    · rw [if_pos hp]
      have : i.filePath ∈ ((p1, g1) :: rest).map Prod.fst := by
        simp [hp.symm]
      rw [if_pos this]
      rfl
    · rw [if_neg hp]
      by_cases hmem : i.filePath ∈ rest.map Prod.fst
      · have hmem2 : i.filePath ∈ ((p1, g1) :: rest).map Prod.fst := by
          simp [hmem]
        rw [if_pos hmem2]
        simp only [List.map_cons]
        rw [ih, if_pos hmem]
      · have hmem2 : i.filePath ∉ ((p1, g1) :: rest).map Prod.fst := by
          simp only [List.map_cons, List.mem_cons]
          rintro (h | h)
          · exact hp h.symm
          · exact hmem h
        rw [if_neg hmem2]
        simp only [List.map_cons]
        rw [ih, if_neg hmem]
        rfl

theorem foldl_insertGroup_keys_nodup :
    ∀ (l : List Issue) (gs0 : List (String × List Issue)),
      ((gs0.map Prod.fst).Nodup) → ((l.foldl insertGroup gs0).map Prod.fst).Nodup := by
  intro l
  induction l with
  | nil =>
    intro gs0 h
    exact h
  | cons x rest ih =>
    intro gs0 h
    rw [List.foldl_cons]
    apply ih
    rw [insertGroup_keys]
    by_cases hmem : x.filePath ∈ gs0.map Prod.fst
    · rw [if_pos hmem]
      exact h
    · rw [if_neg hmem]
      rw [← List.concat_eq_append]
      exact List.Nodup.concat hmem h

theorem groupByFile_keys_nodup (l : List Issue) :
    ((groupByFile l).map Prod.fst).Nodup :=
  foldl_insertGroup_keys_nodup l [] (by simp)

theorem foldl_insertGroup_keys_subset :
    ∀ (l : List Issue) (gs0 : List (String × List Issue)) (x : String),
      x ∈ ((l.foldl insertGroup gs0).map Prod.fst) →
      x ∈ gs0.map Prod.fst ∨ ∃ i ∈ l, i.filePath = x := by
  intro l
  induction l with
  | nil =>
    intro gs0 x hx
    exact Or.inl hx
  | cons y rest ih =>
    intro gs0 x hx
    rw [List.foldl_cons] at hx
    rcases ih _ x hx with h | ⟨i, hi, hix⟩
    · rw [insertGroup_keys] at h
      by_cases hmem : y.filePath ∈ gs0.map Prod.fst
      · rw [if_pos hmem] at h
        exact Or.inl h
      · rw [if_neg hmem] at h
        rcases List.mem_append.mp h with h2 | h2
        · exact Or.inl h2
        · have : x = y.filePath := by
            cases List.mem_singleton.mp h2
            rfl
          exact Or.inr ⟨y, List.mem_cons_self _ _, this.symm⟩
    · exact Or.inr ⟨i, List.mem_cons_of_mem _ hi, hix⟩

theorem groupByFile_keys_subset (l : List Issue) (x : String)
    (hx : x ∈ ((groupByFile l).map Prod.fst)) : ∃ i ∈ l, i.filePath = x := by
  rcases foldl_insertGroup_keys_subset l [] x hx with h | h
  · cases h
  · exact h

/-! ## C1: rollback lemmas -/

theorem collectStep_of_none (fsX : FS) (m : List (String × String)) (r : FixResult)
    (h : r.backupPath = none) : collectStep fsX m r = m := by
  unfold collectStep
  rw [h]

theorem collectStep_of_some (fsX : FS) (m : List (String × String)) (r : FixResult)
    (b : String) (h : r.backupPath = some b) :
    collectStep fsX m r =
      if r.success && b != "" && (mapGet fsX b).isSome then mapSet m r.filePath b
      else m := by
  unfold collectStep
  rw [h]

theorem collectBackups_mem_aux (fsX : FS) :
    ∀ (results : List FixResult) (m0 : List (String × String)) (e : String × String),
      e ∈ results.foldl (collectStep fsX) m0 →
      e ∈ m0 ∨ ∃ r ∈ results, r.filePath = e.1 ∧ r.backupPath = some e.2 ∧ r.success = true := by
  intro results
  induction results with
  | nil =>
    intro m0 e he
    exact Or.inl he
  | cons r rest ih =>
    intro m0 e he
    rw [List.foldl_cons] at he
    rcases ih _ e he with h | ⟨r2, hr2, hh⟩
    · cases hbp : r.backupPath with
      | none =>
        rw [collectStep_of_none fsX m0 r hbp] at h
        exact Or.inl h
      | some b =>
        rw [collectStep_of_some fsX m0 r b hbp] at h
        by_cases hc : (r.success && b != "" && (mapGet fsX b).isSome) = true
        · rw [if_pos hc] at h
          rcases mem_mapSet _ _ _ _ h with h2 | h2
          · exact Or.inl h2
          · subst h2
            simp only [Bool.and_eq_true] at hc
            exact Or.inr ⟨r, List.mem_cons_self _ _, rfl, hbp, hc.1.1⟩
        · rw [if_neg hc] at h
          exact Or.inl h
    · exact Or.inr ⟨r2, List.mem_cons_of_mem _ hr2, hh⟩

theorem collectBackups_mem (fsX : FS) (results : List FixResult) (e : String × String)
    (he : e ∈ collectBackups fsX results) :
    ∃ r ∈ results, r.filePath = e.1 ∧ r.backupPath = some e.2 ∧ r.success = true := by
  unfold collectBackups at he
  rcases collectBackups_mem_aux fsX results [] e he with h | h
  · cases h
  · exact h

theorem collectBackups_get_aux (fsX : FS) (p b : String) :
    ∀ (results : List FixResult) (m0 : List (String × String)),
      (∀ r ∈ results, r.filePath = p → r.backupPath = none ∨ r.backupPath = some b) →
      (mapGet m0 p = none ∨ mapGet m0 p = some b) →
      (mapGet m0 p = some b ∨
        ∃ r ∈ results, r.filePath = p ∧ r.backupPath = some b ∧
          (r.success && b != "" && (mapGet fsX b).isSome) = true) →
      mapGet (results.foldl (collectStep fsX) m0) p = some b := by
  intro results
  induction results with
  | nil =>
    intro m0 _ _ htrig
    rcases htrig with h | ⟨r, hr, _⟩
    · exact h
    · cases hr
  | cons r rest ih =>
    intro m0 hall hm0 htrig
    rw [List.foldl_cons]
    have hallrest : ∀ r2 ∈ rest, r2.filePath = p → r2.backupPath = none ∨ r2.backupPath = some b :=
      fun r2 h2 => hall r2 (List.mem_cons_of_mem _ h2)
    cases hbp : r.backupPath with
    | none =>
      rw [collectStep_of_none fsX m0 r hbp]
      apply ih m0 hallrest hm0
      rcases htrig with h | ⟨r2, hr2, hfp2, hbp2, hc2⟩
      · exact Or.inl h
      · rcases List.mem_cons.mp hr2 with he | he
        · subst he
          rw [hbp] at hbp2
          cases hbp2
        · exact Or.inr ⟨r2, he, hfp2, hbp2, hc2⟩
    | some b2 =>
      rw [collectStep_of_some fsX m0 r b2 hbp]
      by_cases hc : (r.success && b2 != "" && (mapGet fsX b2).isSome) = true
      · rw [if_pos hc]
        by_cases hfp : r.filePath = p
        · have hb2 : b2 = b := by
            rcases hall r (List.mem_cons_self _ _) hfp with h | h
            · rw [hbp] at h
              cases h
            · rw [hbp] at h
              injection h
          subst hb2
          rw [hfp]
          apply ih _ hallrest
          · exact Or.inr (by rw [mapGet_mapSet_same])
          · exact Or.inl (by rw [mapGet_mapSet_same])
        · apply ih _ hallrest
          · rw [mapGet_mapSet_ne _ _ _ _ (fun h => hfp h.symm)]
            exact hm0
          · rcases htrig with h | ⟨r2, hr2, hfp2, hbp2, hc2⟩
            · exact Or.inl (by rw [mapGet_mapSet_ne _ _ _ _ (fun hh => hfp hh.symm)]; exact h)
            · rcases List.mem_cons.mp hr2 with he | he
              · subst he
                exact absurd hfp2 hfp
              · exact Or.inr ⟨r2, he, hfp2, hbp2, hc2⟩
      · rw [if_neg hc]
        apply ih m0 hallrest hm0
        rcases htrig with h | ⟨r2, hr2, hfp2, hbp2, hc2⟩
        · exact Or.inl h
        · rcases List.mem_cons.mp hr2 with he | he
          · subst he
            rw [hbp] at hbp2
            injection hbp2 with hb2
            subst hb2
            exact absurd hc2 hc
          · exact Or.inr ⟨r2, he, hfp2, hbp2, hc2⟩

theorem collectBackups_get (fsX : FS) (p b : String) (results : List FixResult)
    (hall : ∀ r ∈ results, r.filePath = p → r.backupPath = none ∨ r.backupPath = some b)
    (htrig : ∃ r ∈ results, r.filePath = p ∧ r.backupPath = some b ∧
      (r.success && b != "" && (mapGet fsX b).isSome) = true) :
    mapGet (collectBackups fsX results) p = some b := by
  unfold collectBackups
  exact collectBackups_get_aux fsX p b results [] hall (Or.inl rfl) (Or.inr htrig)

theorem rollbackRestore_cons_some (fs : FS) (q c v : String) (rest : List (String × String))
    (h : mapGet fs c = some v) :
    rollbackRestore fs ((q, c) :: rest) =
      ((rollbackRestore (mapSet fs q v) rest).1,
        (rollbackRestore (mapSet fs q v) rest).2 + 1) := by
  conv_lhs => rw [rollbackRestore]
  rw [h]

theorem rollbackRestore_cons_none (fs : FS) (q c : String) (rest : List (String × String))
    (h : mapGet fs c = none) :
    rollbackRestore fs ((q, c) :: rest) = rollbackRestore fs rest := by
  conv_lhs => rw [rollbackRestore]
  rw [h]

theorem restoreBackups_cons_some (fs : FS) (q c v : String) (rest : List (String × String))
    (h : mapGet fs c = some v) :
    restoreBackups fs ((q, c) :: rest) false =
      ((restoreBackups (mapSet fs q v) rest false).1,
        (restoreBackups (mapSet fs q v) rest false).2.1 + 1,
        (restoreBackups (mapSet fs q v) rest false).2.2) := by
  conv_lhs => rw [restoreBackups]
  rw [h]
  rfl

theorem restoreBackups_cons_none (fs : FS) (q c : String) (rest : List (String × String))
    (h : mapGet fs c = none) :
    restoreBackups fs ((q, c) :: rest) false =
      ((restoreBackups fs rest false).1,
        (restoreBackups fs rest false).2.1, (restoreBackups fs rest false).2.2 + 1) := by
  conv_lhs => rw [restoreBackups]
  rw [h]

theorem rollbackRestore_frame :
    ∀ (l : List (String × String)) (fs : FS) (x : String),
      (∀ e ∈ l, e.1 ≠ x) →
      mapGet (rollbackRestore fs l).1 x = mapGet fs x := by
  intro l
  induction l with
  | nil =>
    intro fs x _
    rfl
  | cons e rest ih =>
    intro fs x hx
    obtain ⟨q, c⟩ := e
    have hq : q ≠ x := hx (q, c) (List.mem_cons_self _ _)
    have hxrest : ∀ e2 ∈ rest, e2.1 ≠ x := fun e2 h2 => hx e2 (List.mem_cons_of_mem _ h2)
    cases hc : mapGet fs c with
    | some v =>
      rw [rollbackRestore_cons_some fs q c v rest hc]
      show mapGet (rollbackRestore (mapSet fs q v) rest).1 x = mapGet fs x
      rw [ih _ x hxrest, mapGet_mapSet_ne _ _ _ _ (fun h => hq h.symm)]
    | none =>
      rw [rollbackRestore_cons_none fs q c rest hc]
      exact ih _ x hxrest

theorem rollbackRestore_get (p b v : String) :
    ∀ (l : List (String × String)) (fs : FS),
      (p, b) ∈ l →
      (∀ e ∈ l, e.1 = p → e.2 = b) →
      (∀ e ∈ l, e.1 ≠ b) →
      mapGet fs b = some v →
      mapGet (rollbackRestore fs l).1 p = some v := by
  intro l
  induction l with
  | nil =>
    intro fs hmem
    cases hmem
  | cons e rest ih =>
    intro fs hmem hkey hnb hv
    obtain ⟨q, c⟩ := e
    have hkeyrest : ∀ e2 ∈ rest, e2.1 = p → e2.2 = b :=
      fun e2 h2 => hkey e2 (List.mem_cons_of_mem _ h2)
    have hnbrest : ∀ e2 ∈ rest, e2.1 ≠ b := fun e2 h2 => hnb e2 (List.mem_cons_of_mem _ h2)
    by_cases hq : q = p
    · have hc : c = b := hkey (q, c) (List.mem_cons_self _ _) hq
      subst hc
      subst hq
      rw [rollbackRestore_cons_some fs q c v rest hv]
      show mapGet (rollbackRestore (mapSet fs q v) rest).1 q = some v
      by_cases hprest : ∃ e2 ∈ rest, e2.1 = q
      · obtain ⟨e2, he2, he2p⟩ := hprest
        have he2b : e2.2 = c := hkeyrest e2 he2 he2p
        have hpb : (q, c) ∈ rest := by
          have he : e2 = (q, c) := by
            obtain ⟨e21, e22⟩ := e2
            simp only at he2p he2b
            rw [he2p, he2b]
          rw [← he]
          exact he2
        apply ih _ hpb hkeyrest hnbrest
        rw [mapGet_mapSet_ne _ _ _ _ (fun h => hnb (q, c) (List.mem_cons_self _ _) h.symm)]
        exact hv
      · push_neg at hprest
        rw [rollbackRestore_frame rest _ q (fun e2 h2 => hprest e2 h2)]
        rw [mapGet_mapSet_same]
    · cases hcget : mapGet fs c with
      | some vc =>
        rw [rollbackRestore_cons_some fs q c vc rest hcget]
        show mapGet (rollbackRestore (mapSet fs q vc) rest).1 p = some v
        have hpbrest : (p, b) ∈ rest := by
          rcases List.mem_cons.mp hmem with h | h
          · injection h with h1 h2
            exact absurd h1.symm hq
          · exact h
        apply ih _ hpbrest hkeyrest hnbrest
        rw [mapGet_mapSet_ne _ _ _ _
          (fun h => hnb (q, c) (List.mem_cons_self _ _) h.symm)]
        exact hv
      | none =>
        rw [rollbackRestore_cons_none fs q c rest hcget]
        have hpbrest : (p, b) ∈ rest := by
          rcases List.mem_cons.mp hmem with h | h
          · injection h with h1 h2
            exact absurd h1.symm hq
          · exact h
        exact ih _ hpbrest hkeyrest hnbrest hv

theorem restoreBackups_frame :
    ∀ (l : List (String × String)) (fs : FS) (x : String),
      (∀ e ∈ l, e.1 ≠ x) →
      mapGet (restoreBackups fs l false).1 x = mapGet fs x := by
  intro l
  induction l with
  | nil =>
    intro fs x _
    rfl
  | cons e rest ih =>
    intro fs x hx
    obtain ⟨q, c⟩ := e
    have hq : q ≠ x := hx (q, c) (List.mem_cons_self _ _)
    have hxrest : ∀ e2 ∈ rest, e2.1 ≠ x := fun e2 h2 => hx e2 (List.mem_cons_of_mem _ h2)
    cases hc : mapGet fs c with
    | some v =>
      rw [restoreBackups_cons_some fs q c v rest hc]
      show mapGet (restoreBackups (mapSet fs q v) rest false).1 x = mapGet fs x
      rw [ih _ x hxrest, mapGet_mapSet_ne _ _ _ _ (fun h => hq h.symm)]
    | none =>
      rw [restoreBackups_cons_none fs q c rest hc]
      exact ih _ x hxrest

theorem restoreBackups_get (p b v : String) :
    ∀ (l : List (String × String)) (fs : FS),
      (p, b) ∈ l →
      (∀ e ∈ l, e.1 = p → e.2 = b) →
      (∀ e ∈ l, e.1 ≠ b) →
      mapGet fs b = some v →
      mapGet (restoreBackups fs l false).1 p = some v := by
  intro l
  induction l with
  | nil =>
    intro fs hmem
    cases hmem
  | cons e rest ih =>
    intro fs hmem hkey hnb hv
    obtain ⟨q, c⟩ := e
    have hkeyrest : ∀ e2 ∈ rest, e2.1 = p → e2.2 = b :=
      fun e2 h2 => hkey e2 (List.mem_cons_of_mem _ h2)
    have hnbrest : ∀ e2 ∈ rest, e2.1 ≠ b := fun e2 h2 => hnb e2 (List.mem_cons_of_mem _ h2)
    by_cases hq : q = p
    · have hc : c = b := hkey (q, c) (List.mem_cons_self _ _) hq
      subst hc
      subst hq
      rw [restoreBackups_cons_some fs q c v rest hv]
      show mapGet (restoreBackups (mapSet fs q v) rest false).1 q = some v
      by_cases hprest : ∃ e2 ∈ rest, e2.1 = q
      · obtain ⟨e2, he2, he2p⟩ := hprest
        have he2b : e2.2 = c := hkeyrest e2 he2 he2p
        have hpb : (q, c) ∈ rest := by
          have he : e2 = (q, c) := by
            obtain ⟨e21, e22⟩ := e2
            simp only at he2p he2b
            rw [he2p, he2b]
          rw [← he]
          exact he2
        apply ih _ hpb hkeyrest hnbrest
        rw [mapGet_mapSet_ne _ _ _ _ (fun h => hnb (q, c) (List.mem_cons_self _ _) h.symm)]
        exact hv
      · push_neg at hprest
        rw [restoreBackups_frame rest _ q (fun e2 h2 => hprest e2 h2)]
        rw [mapGet_mapSet_same]
    · cases hcget : mapGet fs c with
      | some vc =>
        rw [restoreBackups_cons_some fs q c vc rest hcget]
        show mapGet (restoreBackups (mapSet fs q vc) rest false).1 p = some v
        have hpbrest : (p, b) ∈ rest := by
          rcases List.mem_cons.mp hmem with h | h
          · injection h with h1 h2
            exact absurd h1.symm hq
          · exact h
        apply ih _ hpbrest hkeyrest hnbrest
        rw [mapGet_mapSet_ne _ _ _ _
          (fun h => hnb (q, c) (List.mem_cons_self _ _) h.symm)]
        exact hv
      | none =>
        rw [restoreBackups_cons_none fs q c rest hcget]
        have hpbrest : (p, b) ∈ rest := by
          rcases List.mem_cons.mp hmem with h | h
          · injection h with h1 h2
            exact absurd h1.symm hq
          · exact h
        exact ih _ hpbrest hkeyrest hnbrest hv

/-- A file whose content sits at `p + '.llm-guardian-backup'` is discovered by
the disk walk as the backup entry `(p, p + '.llm-guardian-backup')`. -/
theorem mem_findBackupFiles (fsX : FS) (p v : String)
    (hv : mapGet fsX (p ++ ".llm-guardian-backup") = some v)
    (hp : jsIncludes p ".llm-guardian-backup" = false) :
    (p, p ++ ".llm-guardian-backup") ∈ findBackupFiles fsX := by
  unfold findBackupFiles
  apply List.mem_filterMap.mpr
  refine ⟨(p ++ ".llm-guardian-backup", v), mem_of_mapGet_eq_some _ _ _ hv, ?_⟩
  show (if jsEndsWith (p ++ ".llm-guardian-backup") ".llm-guardian-backup" = true
      then some (jsReplaceFirst (p ++ ".llm-guardian-backup") ".llm-guardian-backup" "",
        p ++ ".llm-guardian-backup")
      else none) = some (p, p ++ ".llm-guardian-backup")
  rw [if_pos (jsEndsWith_append_self p _), jsReplaceFirst_strip p hp]

/-- C1: round-trip.  With backups enabled, dry-run off and the default backup
suffix, for every result that `applyFixes` reports as successfully patched
(over issues and on a filesystem whose paths do not already contain the backup
suffix), the pre-patch content of the file survives at the original path plus
the backup suffix, and both restore routes reproduce it exactly:
`SolverAgent.rollback` over the returned results, and the disk-driven rollback
restore over the discovered backup files (without cleanup). -/
theorem applyFixes_rollback_roundTrip (cfg : SolverConfig) (engine : RegexEngine)
    (fs : FS) (issues : List Issue) (r : FixResult)
    (hb : cfg.createBackups = true) (hd : cfg.dryRun = false)
    (hsfx : cfg.backupSuffix = ".llm-guardian-backup")
    (hclean : ∀ i ∈ issues, jsIncludes i.filePath ".llm-guardian-backup" = false)
    (hfsclean : ∀ e ∈ fs, jsIncludes e.1 ".llm-guardian-backup" = false)
    (hr : r ∈ (applyFixes cfg engine fs issues).2) (hs : r.success = true) :
    ∃ orig,
      mapGet fs r.filePath = some orig
      ∧ mapGet (applyFixes cfg engine fs issues).1
          (r.filePath ++ ".llm-guardian-backup") = some orig
      ∧ mapGet (rollback (applyFixes cfg engine fs issues).1
          (applyFixes cfg engine fs issues).2).1 r.filePath = some orig
      ∧ mapGet (restoreBackups (applyFixes cfg engine fs issues).1
          (findBackupFiles (applyFixes cfg engine fs issues).1) false).1 r.filePath =
            some orig := by
  unfold applyFixes at hr ⊢
  set gs := groupByFile (issues.filter (fixableFilter cfg)) with hgsdef
  have hsfxne : cfg.backupSuffix ≠ "" := by
    rw [hsfx]
    decide
  have hkc : ∀ k ∈ gs.map Prod.fst, jsIncludes k ".llm-guardian-backup" = false := by
    intro k hk
    rw [hgsdef] at hk
    obtain ⟨i, hi, hik⟩ := groupByFile_keys_subset _ k hk
    rw [← hik]
    exact hclean i (List.mem_filter.mp hi).1
  have hnd : (gs.map Prod.fst).Nodup := by
    rw [hgsdef]
    exact groupByFile_keys_nodup _
  have hno : ∀ e1 ∈ gs, ∀ e2 ∈ gs, e1.1 ≠ e2.1 ++ cfg.backupSuffix := by
    intro e1 he1 e2 he2 hcontra
    have h1 := hkc e1.1 (List.mem_map_of_mem Prod.fst he1)
    rw [hcontra, hsfx, jsIncludes_append_self] at h1
    cases h1
  obtain ⟨orig, h1, h2⟩ := processGroups_backup_of_success cfg engine hb hd hsfxne
    gs fs r hnd hno hr hs
  rw [hsfx] at h2
  have hrf : ∀ r2 ∈ (processGroups cfg engine fs gs).2,
      ∃ k, k ∈ gs.map Prod.fst ∧ r2.filePath = k ∧
        r2.backupPath =
          (if r2.success = true then some (k ++ ".llm-guardian-backup") else none) := by
    intro r2 hr2
    obtain ⟨p2, g2, hmem2, hfp2, _, hbp2⟩ :=
      processGroups_result_fields cfg engine gs fs r2 hr2
    refine ⟨p2, List.mem_map_of_mem Prod.fst hmem2, hfp2, ?_⟩
    rw [hbp2, hsfx]
    by_cases hs2 : r2.success = true
    · rw [if_pos ⟨hs2, hb, hd⟩, if_pos hs2]
    · rw [if_neg fun hc => hs2 hc.1, if_neg hs2]
  have hball : ∀ r2 ∈ (processGroups cfg engine fs gs).2, r2.filePath = r.filePath →
      r2.backupPath = none ∨
        r2.backupPath = some (r.filePath ++ ".llm-guardian-backup") := by
    intro r2 hr2 hfp2
    obtain ⟨k, _, hfpk, hbpk⟩ := hrf r2 hr2
    by_cases hs2 : r2.success = true
    · refine Or.inr ?_
      rw [hbpk, if_pos hs2, ← hfpk, hfp2]
    · refine Or.inl ?_
      rw [hbpk, if_neg hs2]
  have hrbp : r.backupPath = some (r.filePath ++ ".llm-guardian-backup") := by
    obtain ⟨k, _, hfpk, hbpk⟩ := hrf r hr
    rw [hbpk, if_pos hs, ← hfpk]
  have hbne : ((r.filePath ++ ".llm-guardian-backup") != "") = true :=
    bne_iff_ne.mpr (string_append_ne_empty _ _ (by decide))
  have hcollect : mapGet (collectBackups (processGroups cfg engine fs gs).1
      (processGroups cfg engine fs gs).2) r.filePath =
        some (r.filePath ++ ".llm-guardian-backup") := by
    apply collectBackups_get _ _ _ _ hball
    refine ⟨r, hr, rfl, hrbp, ?_⟩
    rw [hs, hbne, h2]
    rfl
  have hmemcb := mem_of_mapGet_eq_some _ _ _ hcollect
  have hcbform : ∀ e ∈ collectBackups (processGroups cfg engine fs gs).1
      (processGroups cfg engine fs gs).2,
      e.2 = e.1 ++ ".llm-guardian-backup" ∧
        jsIncludes e.1 ".llm-guardian-backup" = false := by
    intro e he
    obtain ⟨r2, hr2, hfp2, hbp2, hs2⟩ := collectBackups_mem _ _ e he
    obtain ⟨k, hk, hfpk, hbpk⟩ := hrf r2 hr2
    rw [hbpk, if_pos hs2] at hbp2
    injection hbp2 with hbp2
    constructor
    · rw [← hbp2, ← hfp2, hfpk]
    · rw [← hfp2, hfpk]
      exact hkc k hk
  have hnbcb : ∀ e ∈ collectBackups (processGroups cfg engine fs gs).1
      (processGroups cfg engine fs gs).2,
      e.1 ≠ r.filePath ++ ".llm-guardian-backup" := by
    intro e he hcontra
    have hcl := (hcbform e he).2
    rw [hcontra, jsIncludes_append_self] at hcl
    cases hcl
  have hroll : mapGet (rollbackRestore (processGroups cfg engine fs gs).1
      (collectBackups (processGroups cfg engine fs gs).1
        (processGroups cfg engine fs gs).2)).1 r.filePath = some orig :=
    rollbackRestore_get r.filePath (r.filePath ++ ".llm-guardian-backup") orig _
      (processGroups cfg engine fs gs).1 hmemcb
      (fun e he hep => by rw [(hcbform e he).1, hep]) hnbcb h2
  have hrclean : jsIncludes r.filePath ".llm-guardian-backup" = false := by
    obtain ⟨k, hk, hfpk, _⟩ := hrf r hr
    rw [hfpk]
    exact hkc k hk
  have hLform : ∀ e ∈ findBackupFiles (processGroups cfg engine fs gs).1,
      ∃ k, k ∈ gs.map Prod.fst ∧ e = (k, k ++ ".llm-guardian-backup") := by
    intro e he
    unfold findBackupFiles at he
    obtain ⟨a, ha, hae⟩ := List.mem_filterMap.mp he
    by_cases hend : jsEndsWith a.1 ".llm-guardian-backup" = true
    · rw [if_pos hend] at hae
      injection hae with hae
      have hak : a.1 ∈ ((processGroups cfg engine fs gs).1.map Prod.fst) :=
        List.mem_map_of_mem Prod.fst ha
      rcases processGroups_keys_subset cfg engine gs fs a.1 hak with hfs | ⟨e2, he2, hcase⟩
      · obtain ⟨a0, ha0, ha0k⟩ := List.mem_map.mp hfs
        have hfc := hfsclean a0 ha0
        rw [ha0k, jsIncludes_of_jsEndsWith _ _ hend] at hfc
        cases hfc
      · rcases hcase with hkb | hkk
        · refine ⟨e2.1, List.mem_map_of_mem Prod.fst he2, ?_⟩
          rw [← hae, hkb, hsfx]
          rw [jsReplaceFirst_strip e2.1 (hkc e2.1 (List.mem_map_of_mem Prod.fst he2))]
        · have hc2 := hkc e2.1 (List.mem_map_of_mem Prod.fst he2)
          rw [← hkk, jsIncludes_of_jsEndsWith _ _ hend] at hc2
          cases hc2
    · rw [if_neg hend] at hae
      cases hae
  have hmemL : (r.filePath, r.filePath ++ ".llm-guardian-backup") ∈
      findBackupFiles (processGroups cfg engine fs gs).1 :=
    mem_findBackupFiles _ r.filePath orig h2 hrclean
  have hrest : mapGet (restoreBackups (processGroups cfg engine fs gs).1
      (findBackupFiles (processGroups cfg engine fs gs).1) false).1 r.filePath =
        some orig := by
    apply restoreBackups_get r.filePath (r.filePath ++ ".llm-guardian-backup") orig _ _
      hmemL ?_ ?_ h2
    · intro e he hep
      obtain ⟨k, hk, hek⟩ := hLform e he
      subst hek
      have hkp : k = r.filePath := hep
      show k ++ ".llm-guardian-backup" = r.filePath ++ ".llm-guardian-backup"
      rw [hkp]
    · intro e he hcontra
      obtain ⟨k, hk, hek⟩ := hLform e he
      subst hek
      have hclk := hkc k hk
      have hkc2 : k = r.filePath ++ ".llm-guardian-backup" := hcontra
      rw [hkc2, jsIncludes_append_self] at hclk
      cases hclk
  exact ⟨orig, h1, h2, hroll, hrest⟩

/-- Witness for C1: the scenario fix `abc → xyz` on `a.ts` succeeds; the
pre-patch content survives at the backup path and both restore routes
reproduce it at `a.ts`. -/
theorem applyFixes_rollback_roundTrip_witness :
    ∃ orig,
      mapGet exFs
          (successRes "abc" (some "a.ts.llm-guardian-backup") "a.ts" exI1 "xyz").filePath =
        some orig
      ∧ mapGet (applyFixes cfg0 noRegex exFs [exI1]).1
          ((successRes "abc" (some "a.ts.llm-guardian-backup") "a.ts" exI1 "xyz").filePath
            ++ ".llm-guardian-backup") = some orig
      ∧ mapGet (rollback (applyFixes cfg0 noRegex exFs [exI1]).1
          (applyFixes cfg0 noRegex exFs [exI1]).2).1
          (successRes "abc" (some "a.ts.llm-guardian-backup") "a.ts" exI1 "xyz").filePath =
        some orig
      ∧ mapGet (restoreBackups (applyFixes cfg0 noRegex exFs [exI1]).1
          (findBackupFiles (applyFixes cfg0 noRegex exFs [exI1]).1) false).1
          (successRes "abc" (some "a.ts.llm-guardian-backup") "a.ts" exI1 "xyz").filePath =
        some orig :=
  applyFixes_rollback_roundTrip cfg0 noRegex exFs [exI1]
    (successRes "abc" (some "a.ts.llm-guardian-backup") "a.ts" exI1 "xyz")
    (by decide) (by decide) (by decide) (by decide) (by decide) (by decide) (by decide)

end LlmGuardian
